import Mathlib

/-!
CSV import conversion pipeline and issue-body trimming.

A shallow embedding of

* `pkg/ccl/importccl/read_import_csv.go`: `csvInputReader.flushBatch`,
  `csvInputReader.readFile` (the producer) and `csvInputReader.convertRecord`
  (the converter workers);
* `pkg/cmd/internal/issues/issues.go`: `trimIssueRequestBody`.

Conventions of the embedding.

* The tokenizer (`encoding/csv`) is outside the repository: an input is the
  finite sequence of results that successive `cr.Read()` calls deliver before
  `io.EOF`.  The record delivered by the `i`-th call (1-based) is "the record
  at position `i`".
* Channels are modelled by traces: a send on `recordCh` is an event of the
  producer trace, a call of the row-emission routine is an event of the
  converter trace.
* The context and the progress callback are oracles that see the trace so far.
* Go `int` is 64 bit wide and a loop counter never reaches `2^63`, so `int`
  values are `Nat`/`Int`; the one narrowing conversion of the source,
  `uint32(i)`, is kept as `i % 2^32`.
-/

namespace importccl

/-! ## Data model -/

/-- The Go type `csvRecord`: a batch of records with its provenance. -/
structure csvRecord where
  r : List (List String)
  file : String
  fileIndex : Int
  rowOffset : Nat
deriving DecidableEq, Repr

/-- The fields of `roachpb.CSVOptions` that `readFile` and `convertRecord`
read themselves (`Comma` and `Comment` only configure the tokenizer).
`Skip` is a `uint32`. -/
structure CSVOptions where
  Skip : Nat
  NullEncoding : Option String
deriving DecidableEq, Repr

/-- The Go type `csvInputReader`, without its channels (see the traces) and
its table descriptor (see `rowConverter`). -/
structure csvInputReader where
  batchSize : Nat
  batch : csvRecord
  opts : CSVOptions
  expectedCols : Nat
deriving DecidableEq, Repr

/-- The errors that `readFile` and `convertRecord` return. -/
inductive ImportError where
  /-- The value of `ctx.Err()` -/
  | ctxErr
  /-- The error returned by the progress callback -/
  | progressErr (cause : String)
  /-- The error `row %d: reading CSV record` wrapping the tokenizer's error -/
  | readCSV (row : Nat) (cause : String)
  /-- The error `row %d: expected %d fields, got %d` -/
  | fieldCount (row expected actual : Nat)
  /-- The error `%s: row %d: parse %q as %s` wrapping the decoder's error -/
  | parse (file : String) (row : Nat) (colName colType : String) (cause : String)
  /-- The error `converting row: %s: row %d` wrapping the emission error -/
  | convertRow (file : String) (row : Nat) (cause : String)
  /-- The error returned by `newRowConverter` -/
  | newConverter (cause : String)
  /-- The error returned by the final `conv.sendBatch` -/
  | sendBatch (cause : String)
deriving DecidableEq, Repr

/-- One result of `cr.Read()` other than `io.EOF`. -/
inductive ReadResult where
  | ok (record : List String)
  | fail (err : String)
deriving DecidableEq, Repr

/-- The observable events of the producer. -/
inductive Event where
  /-- The send `c.recordCh <- c.batch` -/
  | handoff (b : csvRecord)
  /-- The call `progFn(finished)` -/
  | progress (finished : Bool)
deriving DecidableEq, Repr

/-- The environment of the producer: whether the `select` of `flushBatch`
takes the `ctx.Done()` branch, and what the progress callback returns, both
as functions of the events so far. -/
structure Env where
  ctxDone : List Event → Bool
  progFn : List Event → Bool → Option String

/-- The environment without cancellation and with a callback that never
fails. -/
def Env.quiet : Env := ⟨fun _ => false, fun _ _ => none⟩

/-- The batches handed off through the queue, in hand-off order. -/
def handoffs : List Event → List csvRecord
  | [] => []
  | Event.handoff b :: es => b :: handoffs es
  | Event.progress _ :: es => handoffs es

/-- The arguments of the progress callback's invocations, in order. -/
def progressCalls : List Event → List Bool
  | [] => []
  | Event.handoff _ :: es => progressCalls es
  | Event.progress f :: es => f :: progressCalls es

/-! ## The producer: `flushBatch` and `readFile` -/

/-- The result of a producer routine: the returned error (`none` is `nil`),
the reader afterwards and the trace afterwards. -/
abbrev ProducerResult := Option ImportError × csvInputReader × List Event

/-- The method `csvInputReader.flushBatch`. -/
def flushBatch (env : Env) (c : csvInputReader) (tr : List Event) (finished : Bool) :
    ProducerResult :=
  if 0 < c.batch.r.length ∧ env.ctxDone tr = true then
    (some ImportError.ctxErr, c, tr)
  else
    let tr1 := if 0 < c.batch.r.length then tr ++ [Event.handoff c.batch] else tr
    let tr2 := tr1 ++ [Event.progress finished]
    match env.progFn tr1 finished with
    | some e => (some (ImportError.progressErr e), c, tr2)
    | none =>
      if finished then (none, c, tr2)
      else (none, { c with batch := { c.batch with r := [] } }, tr2)

/-- Lines 105-110 of `readFile`: flush when the input is finished or the
batch is full, then restart the row offset at the current position. -/
def flushIfDue (env : Env) (c : csvInputReader) (tr : List Event) (i : Nat)
    (finished : Bool) : ProducerResult :=
  if finished = true ∨ c.batchSize ≤ c.batch.r.length then
    match flushBatch env c tr finished with
    | (some e, c1, tr1) => (some e, c1, tr1)
    | (none, c1, tr1) => (none, { c1 with batch := { c1.batch with rowOffset := i } }, tr1)
  else (none, c, tr)

/-- The test `uint32(i) <= c.opts.Skip` of `readFile`. -/
def skipped (opts : CSVOptions) (i : Nat) : Bool :=
  decide (i % 2 ^ 32 ≤ opts.Skip)

/-- Lines 121-128 of `readFile`: the field-count validation of the record at
position `i`, giving the record to append. -/
def validate (expectedCols i : Nat) (record : List String) :
    Except ImportError (List String) :=
  if record.length = expectedCols then
    Except.ok record
  else if record.length = expectedCols + 1 ∧ record[expectedCols]? = some "" then
    Except.ok (record.take expectedCols)
  else
    Except.error (ImportError.fieldCount i expectedCols record.length)

/-- The statement `c.batch.r = append(c.batch.r, record)`. -/
def appendRecord (c : csvInputReader) (record : List String) : csvInputReader :=
  { c with batch := { c.batch with r := c.batch.r ++ [record] } }

/-- The loop of `readFile` from iteration `i` on, over the remaining results
of `cr.Read()`; the empty list is `io.EOF`. -/
def readLoop (env : Env) :
    csvInputReader → List Event → Nat → List ReadResult → ProducerResult
  | c, tr, i, [] =>
    match flushIfDue env c tr i true with
    | (some e, c1, tr1) => (some e, c1, tr1)
    | (none, c1, tr1) => (none, c1, tr1)
  | c, tr, i, rd :: rest =>
    match flushIfDue env c tr i false with
    | (some e, c1, tr1) => (some e, c1, tr1)
    | (none, c1, tr1) =>
      match rd with
      | ReadResult.fail e => (some (ImportError.readCSV i e), c1, tr1)
      | ReadResult.ok record =>
        if skipped c1.opts i = true then readLoop env c1 tr1 (i + 1) rest
        else
          match validate c1.expectedCols i record with
          | Except.error e => (some e, c1, tr1)
          | Except.ok rec1 => readLoop env (appendRecord c1 rec1) tr1 (i + 1) rest

/-- The method `csvInputReader.readFile` on the input whose tokenization is
`reads`, from the empty trace. -/
def readFile (env : Env) (c : csvInputReader) (reads : List ReadResult)
    (inputIdx : Int) (inputName : String) : ProducerResult :=
  readLoop env
    { c with batch := { file := inputName, fileIndex := inputIdx, rowOffset := 1, r := [] } }
    [] 1 reads

/-- The constructor `newCSVInputReader`; the batch is the zero value until
`readFile` sets it. -/
def newCSVInputReader (opts : CSVOptions) (expectedCols : Nat) : csvInputReader :=
  { opts := opts, expectedCols := expectedCols, batchSize := 500,
    batch := { r := [], file := "", fileIndex := 0, rowOffset := 0 } }

/-- The assignment `c.batchSize = batchSize`, for a reader with another batch
size than the one of the constructor. -/
def csvInputReader.withBatchSize (c : csvInputReader) (batchSize : Nat) : csvInputReader :=
  { c with batchSize := batchSize }

/-! ## The converter: `convertRecord`

The row converter (`newRowConverter`, `conv.row`, `conv.sendBatch`), the
column descriptors and the datum decoder (`tree.ParseDatumStringAs`) are not
part of the two files; they are parameters of the embedding. -/

/-- A visible column: its name and its declared type (the Go field `Type`). -/
structure ColumnDescriptor (T : Type) where
  Name : String
  Typ : T

/-- The fields of the Go type `rowConverter` that `convertRecord` touches:
the visible columns, the reused datums buffer and whether
`evalCtx.SessionData` is set. -/
structure rowConverter (D T : Type) where
  visibleCols : List (ColumnDescriptor T)
  datums : List D
  sessionData : Bool

/-- The observable events of one converter worker. -/
inductive ConvEvent (D : Type) where
  /-- The call `conv.row(ctx, fileIndex, rowNum)`, with the content of
  `conv.datums` at the call -/
  | row (fileIndex : Int) (rowNum : Nat) (datums : List D)
  /-- The final call `conv.sendBatch(ctx)` -/
  | sendBatch

/-- The collaborators of `convertRecord`. A decoder returns a datum and an
error, as in Go; `row` and `sendBatch` see the events so far. -/
structure Deps (D T : Type) where
  DNull : D
  ParseDatumStringAs : T → String → D × Option String
  SQLString : T → String
  newRowConverter : Except String (rowConverter D T)
  row : List (ConvEvent D) → Int → Nat → List D → Option String
  sendBatch : List (ConvEvent D) → Option String

/-- How a converter routine ends: it returns `nil`, returns an error, or
panics. -/
inductive Outcome where
  | nil
  | error (e : ImportError)
  | panic (msg : String)
deriving DecidableEq, Repr

section converter

variable {D T : Type}

/-- The body of the loop `for i, v := range record` of `convertRecord`
(lines 156-165), for the field `v` of index `i` of a record of row `rowNum`
of the file `file`. -/
def convertField (deps : Deps D T) (opts : CSVOptions) (file : String) (rowNum : Nat)
    (conv : rowConverter D T) (i : Nat) (v : String) : Outcome × rowConverter D T :=
  match conv.visibleCols[i]? with
  | none => (Outcome.panic "index out of range", conv)
  | some col =>
    if opts.NullEncoding = some v then
      if i < conv.datums.length then
        (Outcome.nil, { conv with datums := conv.datums.set i deps.DNull })
      else (Outcome.panic "index out of range", conv)
    else
      let res := deps.ParseDatumStringAs col.Typ v
      if i < conv.datums.length then
        let conv1 := { conv with datums := conv.datums.set i res.1 }
        match res.2 with
        | some e =>
          (Outcome.error (ImportError.parse file rowNum col.Name (deps.SQLString col.Typ) e),
            conv1)
        | none => (Outcome.nil, conv1)
      else (Outcome.panic "index out of range", conv)

/-- The loop `for i, v := range record` from field index `i` on. -/
def convertFields (deps : Deps D T) (opts : CSVOptions) (file : String) (rowNum : Nat) :
    rowConverter D T → Nat → List String → Outcome × rowConverter D T
  | conv, _, [] => (Outcome.nil, conv)
  | conv, i, v :: vs =>
    match convertField deps opts file rowNum conv i v with
    | (Outcome.nil, conv1) => convertFields deps opts file rowNum conv1 (i + 1) vs
    | (out, conv1) => (out, conv1)

/-- The result of a converter routine: how it ends, the converter afterwards
and the trace afterwards. -/
abbrev ConvResult (D T : Type) := Outcome × rowConverter D T × List (ConvEvent D)

/-- The loop `for batchIdx, record := range batch.r` of `convertRecord` from
record index `batchIdx` on (lines 153-170). -/
def convertRows (deps : Deps D T) (opts : CSVOptions) (batch : csvRecord) :
    rowConverter D T → List (ConvEvent D) → Nat → List (List String) → ConvResult D T
  | conv, tr, _, [] => (Outcome.nil, conv, tr)
  | conv, tr, batchIdx, record :: records =>
    let rowNum := batch.rowOffset + batchIdx
    match convertFields deps opts batch.file rowNum conv 0 record with
    | (Outcome.nil, conv1) =>
      let tr1 := tr ++ [ConvEvent.row batch.fileIndex rowNum conv1.datums]
      match deps.row tr batch.fileIndex rowNum conv1.datums with
      | some e => (Outcome.error (ImportError.convertRow batch.file rowNum e), conv1, tr1)
      | none => convertRows deps opts batch conv1 tr1 (batchIdx + 1) records
    | (out, conv1) => (out, conv1, tr)

/-- The loop `for batch := range c.recordCh` of `convertRecord`, over the
batches that this worker receives. -/
def convertBatches (deps : Deps D T) (opts : CSVOptions) :
    rowConverter D T → List (ConvEvent D) → List csvRecord → ConvResult D T
  | conv, tr, [] => (Outcome.nil, conv, tr)
  | conv, tr, batch :: batches =>
    match convertRows deps opts batch conv tr 0 batch.r with
    | (Outcome.nil, conv1, tr1) => convertBatches deps opts conv1 tr1 batches
    | (out, conv1, tr1) => (out, conv1, tr1)

/-- The method `csvInputReader.convertRecord` of one worker that receives
the batches `batches` from `recordCh`: how it ends and its trace. -/
def convertRecord (deps : Deps D T) (opts : CSVOptions) (batches : List csvRecord) :
    Outcome × List (ConvEvent D) :=
  match deps.newRowConverter with
  | Except.error e => (Outcome.error (ImportError.newConverter e), [])
  | Except.ok conv =>
    if conv.sessionData = false then (Outcome.panic "uninitialized session data", [])
    else
      match convertBatches deps opts conv [] batches with
      | (Outcome.nil, _, tr) =>
        match deps.sendBatch tr with
        | some e => (Outcome.error (ImportError.sendBatch e), tr ++ [ConvEvent.sendBatch])
        | none => (Outcome.nil, tr ++ [ConvEvent.sendBatch])
      | (out, _, tr) => (out, tr)

end converter

end importccl

namespace issues

/-! ## `trimIssueRequestBody`

A Go string is its sequence of bytes, `len` is the number of bytes.  A slice
expression out of range panics.  The two `for len(message) > maxLength`
loops are run with a fuel of `len(message) + 1` iterations. -/

/-- A Go string, as its bytes. -/
abbrev GoString := List UInt8

/-- How a Go routine ends: it returns a value, panics, or is still running
when the fuel is used up. -/
inductive GoResult (α : Type) where
  | ret (a : α)
  | panicked
  | outOfFuel
deriving DecidableEq, Repr

/-- The constant `githubIssueBodyMaximumLength = 1<<16 - 1`. -/
def githubIssueBodyMaximumLength : Int := 2 ^ 16 - 1

/-- The slice expression `s[lo:hi]`; `none` is the run-time panic. -/
def slice (s : GoString) (lo hi : Int) : Option GoString :=
  if 0 ≤ lo ∧ lo ≤ hi ∧ hi ≤ (s.length : Int) then
    some ((s.take hi.toNat).drop lo.toNat)
  else none

/-- The function `strings.IndexByte`: the first index of `c` in `s`, or `-1`. -/
def IndexByte : GoString → UInt8 → Int
  | [], _ => -1
  | b :: s, c => if b = c then 0 else if IndexByte s c = -1 then -1 else IndexByte s c + 1

/-- The function `strings.LastIndexByte`: the last index of `c` in `s`, or `-1`. -/
def LastIndexByte : GoString → UInt8 → Int
  | [], _ => -1
  | b :: s, c =>
    if LastIndexByte s c ≠ -1 then LastIndexByte s c + 1 else if b = c then 0 else -1

/-- The class `\s` of Go regular expressions: tab, newline, form feed,
carriage return, space. -/
def isSpace (b : UInt8) : Bool :=
  b = 9 || b = 10 || b = 12 || b = 13 || b = 32

/-- The class `\d` of Go regular expressions. -/
def isDigit (b : UInt8) : Bool :=
  decide (48 ≤ b.toNat ∧ b.toNat ≤ 57)

/-- The bytes of the word `goroutine`. -/
def goroutineBytes : GoString := [103, 111, 114, 111, 117, 116, 105, 110, 101]

/-- Whether `p` is a beginning of `s`. -/
def startsWith : GoString → GoString → Bool
  | _, [] => true
  | [], _ :: _ => false
  | b :: s, a :: p => b = a && startsWith s p

/-- The length of the match of `goroutine\s\d+` at the beginning of `s`, if
there is one (`\d+` is greedy). -/
def matchHere (s : GoString) : Option Nat :=
  if startsWith s goroutineBytes = true then
    match s.drop 9 with
    | [] => none
    | sp :: rest =>
      if isSpace sp = true ∧ 0 < (rest.takeWhile isDigit).length then
        some (10 + (rest.takeWhile isDigit).length)
      else none
  else none

/-- The leftmost match of `(?m:^goroutine\s\d+)` in the text that remains
from offset `pos` on; `lineStart` tells whether `pos` is the beginning of the
text or follows a newline. -/
def findFrom : Bool → Nat → GoString → Option (Int × Int)
  | _, _, [] => none
  | lineStart, pos, b :: s =>
    match (if lineStart = true then matchHere (b :: s) else none) with
    | some n => some ((pos : Int), ((pos + n : Nat) : Int))
    | none => findFrom (b = 10) (pos + 1) s

/-- The call `stacktraceRE.FindStringIndex(message)`; `none` is `nil`. -/
def FindStringIndex (message : GoString) : Option (Int × Int) :=
  findFrom true 0 message

/-- The loop `for i := 0; i < 100; i++` of `trimIssueRequestBody`, with `n`
iterations left: the final `startIdx`. -/
def backUp (message : GoString) : Nat → Int → GoResult Int
  | 0, startIdx => GoResult.ret startIdx
  | n + 1, startIdx =>
    match slice message 0 startIdx with
    | none => GoResult.panicked
    | some pre =>
      if LastIndexByte pre 10 ≠ -1 then backUp message n (LastIndexByte pre 10)
      else backUp message n startIdx

/-- The loop `for len(message) > maxLength` of the stack-trace branch: lines
are dropped at the end. -/
def trimTail (maxLength : Int) : Nat → GoString → GoResult GoString
  | fuel, message =>
    if maxLength < (message.length : Int) then
      match fuel with
      | 0 => GoResult.outOfFuel
      | fuel + 1 =>
        match (if LastIndexByte message 10 ≠ -1 then slice message 0 (LastIndexByte message 10)
               else slice message 0 maxLength) with
        | none => GoResult.panicked
        | some m => trimTail maxLength fuel m
    else GoResult.ret message

/-- The loop `for len(message) > maxLength` of the other branch: lines are
dropped at the beginning. -/
def trimHead (maxLength : Int) : Nat → GoString → GoResult GoString
  | fuel, message =>
    if maxLength < (message.length : Int) then
      match fuel with
      | 0 => GoResult.outOfFuel
      | fuel + 1 =>
        match (if IndexByte message 10 ≠ -1 then
                 slice message (IndexByte message 10 + 1) message.length
               else slice message ((message.length : Int) - maxLength) message.length) with
        | none => GoResult.panicked
        | some m => trimHead maxLength fuel m
    else GoResult.ret message

/-- The function `trimIssueRequestBody`. -/
def trimIssueRequestBody (message : GoString) (usedCharacters : Int) : GoResult GoString :=
  let maxLength := githubIssueBodyMaximumLength - usedCharacters
  match FindStringIndex message with
  | some m =>
    match backUp message 100 m.1 with
    | GoResult.ret startIdx =>
      match slice message startIdx message.length with
      | none => GoResult.panicked
      | some message1 => trimTail maxLength (message1.length + 1) message1
    | GoResult.panicked => GoResult.panicked
    | GoResult.outOfFuel => GoResult.outOfFuel
  | none => trimHead maxLength (message.length + 1) message

end issues

namespace importccl

/-! ## Vocabulary of the statements -/

/-- The records of the input that `readFile` does not skip, each with its
position, when the first result of the list is at position `i`. -/
def nonSkipped (opts : CSVOptions) : Nat → List ReadResult → List (Nat × List String)
  | _, [] => []
  | i, ReadResult.ok record :: rest =>
    if skipped opts i = true then nonSkipped opts (i + 1) rest
    else (i, record) :: nonSkipped opts (i + 1) rest
  | i, ReadResult.fail _ :: rest => nonSkipped opts (i + 1) rest

/-- The record of a tokenizer result cut to `expectedCols` fields, if the
result is a record. -/
def normalised (expectedCols : Nat) : ReadResult → Option (List String)
  | ReadResult.ok record => some (record.take expectedCols)
  | ReadResult.fail _ => none

/-- The batch `b` numbers its records by their positions in the input
`reads`: its record of index `j` is the record at position
`b.rowOffset + j`, cut to `expectedCols` fields. -/
def numbersByPosition (expectedCols : Nat) (reads : List ReadResult) (b : csvRecord) : Prop :=
  ∀ (j : Nat) (record : List String), b.r[j]? = some record →
    ∃ raw, reads[b.rowOffset + j - 1]? = some (ReadResult.ok raw) ∧
      record = raw.take expectedCols

/-- The quotient `a / b` rounded up. -/
def ceilDiv (a b : Nat) : Nat := (a + b - 1) / b

/-- The records handed off through the queue, batch after batch. -/
def handedOff (tr : List Event) : List (List String) :=
  (handoffs tr).flatMap (fun b => b.r)

section converter

variable {D T : Type}

/-- The datum that `convertRecord` stores for the field `v` of a column of
type `t`: the null datum for the null sentinel, else what the decoder
returns. -/
def decodeField (deps : Deps D T) (opts : CSVOptions) (t : T) (v : String) : D :=
  if opts.NullEncoding = some v then deps.DNull else (deps.ParseDatumStringAs t v).1

/-- The field `v` of a column of type `t` fails to decode: it is not the
null sentinel and the decoder reports an error. -/
def failsToDecode (deps : Deps D T) (opts : CSVOptions) (t : T) (v : String) : Prop :=
  opts.NullEncoding ≠ some v ∧ (deps.ParseDatumStringAs t v).2 ≠ none

instance (deps : Deps D T) (opts : CSVOptions) (t : T) (v : String) :
    Decidable (failsToDecode deps opts t v) := by
  unfold failsToDecode
  infer_instance

/-- The content of the datums buffer `base` after the fields of `record`
have been decoded into its first slots. -/
def decodedRow (deps : Deps D T) (opts : CSVOptions) (cols : List (ColumnDescriptor T))
    (base : List D) (record : List String) : List D :=
  List.zipWith (fun col v => decodeField deps opts col.Typ v) cols record ++
    base.drop record.length

/-- The rows of the records `records` of a batch whose first record of the
list has index `batchIdx`: file index, absolute row number, decoded values. -/
def rowsFrom (deps : Deps D T) (opts : CSVOptions) (cols : List (ColumnDescriptor T))
    (base : List D) (batch : csvRecord) : Nat → List (List String) → List (Int × Nat × List D)
  | _, [] => []
  | batchIdx, record :: records =>
    (batch.fileIndex, batch.rowOffset + batchIdx, decodedRow deps opts cols base record) ::
      rowsFrom deps opts cols base batch (batchIdx + 1) records

/-- The rows of a batch, in the order of its records. -/
def rowsOf (deps : Deps D T) (opts : CSVOptions) (cols : List (ColumnDescriptor T))
    (base : List D) (batch : csvRecord) : List (Int × Nat × List D) :=
  rowsFrom deps opts cols base batch 0 batch.r

/-- The tuples handed to the row-emission routine, in order. -/
def emitted : List (ConvEvent D) → List (Int × Nat × List D)
  | [] => []
  | ConvEvent.row fileIndex rowNum datums :: es => (fileIndex, rowNum, datums) :: emitted es
  | ConvEvent.sendBatch :: es => emitted es

/-- Whether the final `conv.sendBatch` was called. -/
def flushed : List (ConvEvent D) → Bool
  | [] => false
  | ConvEvent.row _ _ _ :: es => flushed es
  | ConvEvent.sendBatch :: _ => true

/-- The row event `ev` carries a record of the batches `batches` decoded
field by field: it is the row of a record of index `k` of a batch, with the
file index and the row number `rowOffset + k` of that record, and for every
field `v` of index `n` of the record the column `n` is visible and the datum
in slot `n` is the null datum when `v` is the null sentinel, and else what
the decoder returns for `v` at the type of the column. The final `sendBatch`
carries no record. -/
def rowDecoded (deps : Deps D T) (opts : CSVOptions) (cols : List (ColumnDescriptor T))
    (batches : List csvRecord) : ConvEvent D → Prop
  | ConvEvent.row fileIndex rowNum datums =>
    ∃ b ∈ batches, ∃ (k : Nat) (record : List String), b.r[k]? = some record ∧
      fileIndex = b.fileIndex ∧ rowNum = b.rowOffset + k ∧
      ∀ (n : Nat) (v : String), record[n]? = some v →
        ∃ col, cols[n]? = some col ∧
          datums[n]? = some (if opts.NullEncoding = some v then deps.DNull
            else (deps.ParseDatumStringAs col.Typ v).1)
  | ConvEvent.sendBatch => True

/-- The batches that worker `w` receives when the batch of index `n` goes to
worker `assign n`, in queue order. -/
def received (assign : Nat → Nat) (w : Nat) : Nat → List csvRecord → List csvRecord
  | _, [] => []
  | n, b :: bs =>
    if assign n = w then b :: received assign w (n + 1) bs else received assign w (n + 1) bs

/-- The tuples that a pool of `P` workers hands to the row-emission routine,
worker after worker, when the batch of index `n` goes to worker `assign n`. -/
def poolEmitted (deps : Deps D T) (opts : CSVOptions) (P : Nat) (assign : Nat → Nat)
    (batches : List csvRecord) : List (Int × Nat × List D) :=
  (List.range P).flatMap
    (fun w => emitted (convertRecord deps opts (received assign w 0 batches)).2)

end converter

/-! ## A sample table for the concrete instances -/

/-- Sample datums: null, the nil interface value, integers and strings. -/
inductive SampleDatum where
  | DNull
  | unset
  | DInt (digits : String)
  | DString (s : String)
deriving DecidableEq, Repr

/-- Sample column types. -/
inductive SampleType where
  | INT
  | STRING
deriving DecidableEq, Repr

/-- A sample decoder: an `INT` column takes non-empty strings of digits, a
`STRING` column takes every string. -/
def sampleParse : SampleType → String → SampleDatum × Option String
  | SampleType.INT, v =>
    if v.data.all Char.isDigit = true ∧ v.data ≠ [] then (SampleDatum.DInt v, none)
    else (SampleDatum.unset, some "could not parse as INT")
  | SampleType.STRING, v => (SampleDatum.DString v, none)

/-- A sample table with the visible columns `id INT` and `name STRING`. -/
def sampleConverter : rowConverter SampleDatum SampleType :=
  { visibleCols := [⟨"id", SampleType.INT⟩, ⟨"name", SampleType.STRING⟩],
    datums := [SampleDatum.unset, SampleDatum.unset],
    sessionData := true }

/-- Sample collaborators whose row emission fails on the rows `failRows`. -/
def sampleDeps (failRows : List Nat) : Deps SampleDatum SampleType :=
  { DNull := SampleDatum.DNull,
    ParseDatumStringAs := sampleParse,
    SQLString := fun t => match t with
      | SampleType.INT => "INT"
      | SampleType.STRING => "STRING",
    newRowConverter := Except.ok sampleConverter,
    row := fun _ _ rowNum _ => if rowNum ∈ failRows then some "emission failed" else none,
    sendBatch := fun _ => none }

end importccl

namespace importccl

/-! ## Producer: basic facts -/

theorem handoffs_append (a b : List Event) : handoffs (a ++ b) = handoffs a ++ handoffs b := by
  induction a with
  | nil => rfl
  | cons e es ih => cases e <;> simp [handoffs, ih]

theorem progressCalls_append (a b : List Event) :
    progressCalls (a ++ b) = progressCalls a ++ progressCalls b := by
  induction a with
  | nil => rfl
  | cons e es ih => cases e <;> simp [progressCalls, ih]

/-- What `flushBatch` does when the context is not done and the callback
does not fail. -/
theorem flushBatch_quiet (env : Env) (c : csvInputReader) (tr : List Event) (finished : Bool)
    (hctx : ∀ t, env.ctxDone t = false) (hprog : ∀ t f, env.progFn t f = none) :
    flushBatch env c tr finished =
      (none,
        if finished = true then c else { c with batch := { c.batch with r := [] } },
        (if 0 < c.batch.r.length then tr ++ [Event.handoff c.batch] else tr) ++
          [Event.progress finished]) := by
  simp only [flushBatch, hctx, hprog]
  cases finished <;> simp

/-- The reader fields that no producer routine changes, and the shape of the
trace after `flushIfDue`, in any environment. -/
theorem flushIfDue_shape (env : Env) (c : csvInputReader) (tr : List Event) (i : Nat)
    (finished : Bool) :
    (flushIfDue env c tr i finished).2.1.batchSize = c.batchSize ∧
    (flushIfDue env c tr i finished).2.1.opts = c.opts ∧
    (flushIfDue env c tr i finished).2.1.expectedCols = c.expectedCols ∧
    (flushIfDue env c tr i finished).2.1.batch.file = c.batch.file ∧
    (flushIfDue env c tr i finished).2.1.batch.fileIndex = c.batch.fileIndex ∧
    ((flushIfDue env c tr i finished).2.1.batch.r = c.batch.r ∨
      (flushIfDue env c tr i finished).2.1.batch.r = []) ∧
    (handoffs (flushIfDue env c tr i finished).2.2 = handoffs tr ∨
      (0 < c.batch.r.length ∧
        handoffs (flushIfDue env c tr i finished).2.2 = handoffs tr ++ [c.batch])) := by
  unfold flushIfDue flushBatch
  by_cases h1 : finished = true ∨ c.batchSize ≤ c.batch.r.length
  · by_cases h2 : 0 < c.batch.r.length ∧ env.ctxDone tr = true
    · simp [h1, h2]
    · by_cases h3 : 0 < c.batch.r.length
      · cases hp : env.progFn (tr ++ [Event.handoff c.batch]) finished <;>
          cases finished <;> simp_all [handoffs_append, handoffs]
      · cases hp : env.progFn tr finished <;>
          cases finished <;> simp_all [handoffs_append, handoffs]
  · simp [h1]

/-- Without error, a flush before the end of the input leaves a batch that
is not full, when the batch size is positive. -/
theorem flushIfDue_room (env : Env) (c : csvInputReader) (tr : List Event) (i : Nat)
    (hB : 1 ≤ c.batchSize) (hlen : c.batch.r.length ≤ c.batchSize)
    (hok : (flushIfDue env c tr i false).1 = none) :
    (flushIfDue env c tr i false).2.1.batch.r.length < c.batchSize := by
  unfold flushIfDue flushBatch at hok ⊢
  by_cases h1 : c.batchSize ≤ c.batch.r.length
  · by_cases h2 : 0 < c.batch.r.length ∧ env.ctxDone tr = true
    · simp [h1, h2] at hok
    · by_cases h3 : 0 < c.batch.r.length
      · cases hp : env.progFn (tr ++ [Event.handoff c.batch]) false <;> simp_all
        omega
      · omega
  · simp [h1]
    omega

/-- The loop invariant behind the batch-size bound: every batch handed off
holds between one and `batchSize` records. -/
theorem readLoop_handoffs_bound (env : Env) (B : Nat) (hB : 1 ≤ B) (reads : List ReadResult) :
    ∀ (c : csvInputReader) (tr : List Event) (i : Nat), c.batchSize = B →
      c.batch.r.length ≤ B →
      (∀ b ∈ handoffs tr, 1 ≤ b.r.length ∧ b.r.length ≤ B) →
      ∀ b ∈ handoffs (readLoop env c tr i reads).2.2, 1 ≤ b.r.length ∧ b.r.length ≤ B := by
  induction reads with
  | nil =>
    intro c tr i hcB hlen htr b hb
    obtain ⟨-, -, -, -, -, -, hh⟩ := flushIfDue_shape env c tr i true
    have hb' : b ∈ handoffs (flushIfDue env c tr i true).2.2 := by
      unfold readLoop at hb
      rcases hres : flushIfDue env c tr i true with ⟨_ | e, c1, tr1⟩ <;> simp_all
    rcases hh with hh | ⟨hpos, hh⟩
    · rw [hh] at hb'
      exact htr b hb'
    · rw [hh] at hb'
      rcases List.mem_append.1 hb' with h | h
      · exact htr b h
      · simp at h
        subst h
        exact ⟨hpos, hlen⟩
  | cons rd rest ih =>
    intro c tr i hcB hlen htr b hb
    obtain ⟨hs1, hs2, hs3, -, -, -, hh⟩ := flushIfDue_shape env c tr i false
    have hroom := flushIfDue_room env c tr i (by omega) (by omega)
    have htr1 : ∀ b ∈ handoffs (flushIfDue env c tr i false).2.2,
        1 ≤ b.r.length ∧ b.r.length ≤ B := by
      intro b hb'
      rcases hh with hh | ⟨hpos, hh⟩
      · rw [hh] at hb'
        exact htr b hb'
      · rw [hh] at hb'
        rcases List.mem_append.1 hb' with h | h
        · exact htr b h
        · simp at h
          subst h
          exact ⟨hpos, hlen⟩
    unfold readLoop at hb
    rcases hres : flushIfDue env c tr i false with ⟨_ | e, c1, tr1⟩
    · rw [hres] at hs1 hroom htr1
      simp only [hres] at hb
      simp only at hs1 hroom htr1
      have hroom1 := hroom trivial
      cases rd with
      | fail e => exact htr1 b hb
      | ok record =>
        simp only at hb
        by_cases hsk : skipped c1.opts i = true
        · simp only [hsk, if_true] at hb
          exact ih c1 tr1 (i + 1) (by omega) (by omega) htr1 b hb
        · simp only [hsk] at hb
          cases hv : validate c1.expectedCols i record with
          | error e =>
            simp only [hv] at hb
            exact htr1 b hb
          | ok rec1 =>
            simp only [hv] at hb
            refine ih (appendRecord c1 rec1) tr1 (i + 1) ?_ ?_ htr1 b hb
            · simp [appendRecord]; omega
            · simp [appendRecord]; omega
    · rw [hres] at htr1
      simp only [hres] at hb
      exact htr1 b hb

/-- What `flushIfDue` does when the context is not done and the callback
does not fail. -/
theorem flushIfDue_quiet (env : Env) (c : csvInputReader) (tr : List Event) (i : Nat)
    (finished : Bool)
    (hctx : ∀ t, env.ctxDone t = false) (hprog : ∀ t f, env.progFn t f = none) :
    flushIfDue env c tr i finished =
      if finished = true ∨ c.batchSize ≤ c.batch.r.length then
        (none,
          { c with batch :=
              { c.batch with
                r := if finished = true then c.batch.r else [], rowOffset := i } },
          (if 0 < c.batch.r.length then tr ++ [Event.handoff c.batch] else tr) ++
            [Event.progress finished])
      else (none, c, tr) := by
  unfold flushIfDue
  rw [flushBatch_quiet env c tr finished hctx hprog]
  cases finished <;> simp

/-- A record that passes the validation is appended cut to `expectedCols`
fields, and then has exactly that many fields. -/
theorem validate_ok {expectedCols i : Nat} {record rec1 : List String}
    (h : validate expectedCols i record = Except.ok rec1) :
    rec1 = record.take expectedCols ∧ rec1.length = expectedCols := by
  unfold validate at h
  by_cases h1 : record.length = expectedCols
  · simp [h1] at h
    subst h
    simp [← h1]
  · by_cases h2 : record.length = expectedCols + 1 ∧ record[expectedCols]? = some ""
    · rw [if_neg h1, if_pos h2] at h
      injection h with h
      subst h
      simp [h2.1]
    · simp [h1, h2] at h

theorem ceilDiv_zero (B : Nat) (hB : 1 ≤ B) : ceilDiv 0 B = 0 := by
  unfold ceilDiv
  apply Nat.div_eq_of_lt
  omega

theorem ceilDiv_le (l B : Nat) (h1 : 1 ≤ l) (h2 : l ≤ B) : ceilDiv l B = 1 := by
  unfold ceilDiv
  apply Nat.div_eq_of_lt_le <;> omega

theorem ceilDiv_add_left (x B : Nat) (hB : 1 ≤ B) : ceilDiv (B + x) B = ceilDiv x B + 1 := by
  unfold ceilDiv
  have h : B + x + B - 1 = (x + B - 1) + B := by omega
  rw [h, Nat.add_div_right _ (by omega)]

/-- A run of the loop of `readFile` on well-formed input whose records all
pass the validation, without cancellation or callback failure: no error, the
number of batches handed off, and the shape of the progress calls. -/
theorem readLoop_quiet (env : Env) (hctx : ∀ t, env.ctxDone t = false)
    (hprog : ∀ t f, env.progFn t f = none) (B : Nat) (hB : 1 ≤ B) (reads : List ReadResult) :
    ∀ (c : csvInputReader) (tr : List Event) (i : Nat), c.batchSize = B →
      c.batch.r.length ≤ B →
      (∀ rd ∈ reads, ∃ record, rd = ReadResult.ok record) →
      (∀ p ∈ nonSkipped c.opts i reads,
        ∃ rec1, validate c.expectedCols p.1 p.2 = Except.ok rec1) →
      (readLoop env c tr i reads).1 = none ∧
      (handoffs (readLoop env c tr i reads).2.2).length =
        (handoffs tr).length +
          ceilDiv (c.batch.r.length + (nonSkipped c.opts i reads).length) B ∧
      (∀ b ∈ handoffs (readLoop env c tr i reads).2.2, b ∈ handoffs tr ∨ b.r ≠ []) ∧
      ∃ n, progressCalls (readLoop env c tr i reads).2.2 =
          progressCalls tr ++ List.replicate n false ++ [true] ∧
        (n + 1 = ceilDiv (c.batch.r.length + (nonSkipped c.opts i reads).length) B ∨
          n = ceilDiv (c.batch.r.length + (nonSkipped c.opts i reads).length) B) := by
  induction reads with
  | nil =>
    intro c tr i hcB hlen _ _
    unfold readLoop
    rw [flushIfDue_quiet env c tr i true hctx hprog]
    by_cases hpos : 0 < c.batch.r.length
    · have hc : ceilDiv c.batch.r.length B = 1 := ceilDiv_le _ _ hpos hlen
      simp only [true_or, if_true, nonSkipped, List.length_nil, Nat.add_zero, hpos,
        handoffs_append, progressCalls_append, handoffs, progressCalls, hc,
        List.length_append, List.length_cons, List.append_nil, true_and]
      refine ⟨?_, ⟨0, by simp⟩⟩
      intro b hb
      rcases List.mem_append.1 hb with h | h
      · exact Or.inl h
      · right
        simp at h
        subst h
        exact List.ne_nil_of_length_pos hpos
    · have hc : ceilDiv c.batch.r.length B = 0 := by
        have h0 : c.batch.r.length = 0 := by omega
        rw [h0]
        exact ceilDiv_zero B hB
      simp only [true_or, if_true, nonSkipped, List.length_nil, Nat.add_zero, hpos, if_false,
        handoffs_append, progressCalls_append, handoffs, progressCalls, hc,
        List.append_nil, true_and]
      exact ⟨fun b hb => Or.inl hb, ⟨0, by simp⟩⟩
  | cons rd rest ih =>
    intro c tr i hcB hlen hwf hval
    obtain ⟨record, hrd⟩ := hwf rd (List.mem_cons_self _ _)
    subst hrd
    have hwf1 : ∀ rd ∈ rest, ∃ record, rd = ReadResult.ok record :=
      fun rd h => hwf rd (List.mem_cons_of_mem _ h)
    obtain ⟨c1, tr1, d, hfl, hc1B, hc1o, hc1e, hl1, hl, hh, hp, hne⟩ :
        ∃ c1 tr1 d, flushIfDue env c tr i false = (none, c1, tr1) ∧ c1.batchSize = B ∧
          c1.opts = c.opts ∧ c1.expectedCols = c.expectedCols ∧ c1.batch.r.length < B ∧
          c.batch.r.length = d * B + c1.batch.r.length ∧
          (handoffs tr1).length = (handoffs tr).length + d ∧
          progressCalls tr1 = progressCalls tr ++ List.replicate d false ∧
          (∀ b ∈ handoffs tr1, b ∈ handoffs tr ∨ b.r ≠ []) := by
      rw [flushIfDue_quiet env c tr i false hctx hprog]
      by_cases hfull : c.batchSize ≤ c.batch.r.length
      · have hpos : 0 < c.batch.r.length := by omega
        refine ⟨{ c with batch := { c.batch with r := [], rowOffset := i } },
          tr ++ [Event.handoff c.batch] ++ [Event.progress false], 1,
          by simp only [hfull, or_true, if_true, hpos, Bool.false_eq_true, if_false],
          hcB, rfl, rfl, by simp; omega, by simp; omega, ?_, ?_, ?_⟩
        · simp [handoffs_append, handoffs]
        · simp [progressCalls_append, progressCalls]
        · intro b hb
          simp only [handoffs_append, handoffs, List.append_nil] at hb
          rcases List.mem_append.1 hb with h | h
          · exact Or.inl h
          · right
            simp at h
            subst h
            exact List.ne_nil_of_length_pos hpos
      · refine ⟨c, tr, 0, by simp [hfull], hcB, rfl, rfl, by omega, by simp, by simp, by simp,
          fun b hb => Or.inl hb⟩
    have hceil : ∀ x, ceilDiv (c.batch.r.length + x) B = d + ceilDiv (c1.batch.r.length + x) B := by
      intro x
      rw [hl]
      clear hl hp hh
      induction d with
      | zero => simp
      | succ d ihd =>
        have : (d + 1) * B + c1.batch.r.length + x = B + (d * B + c1.batch.r.length + x) := by
          rw [Nat.succ_mul]; omega
        rw [this, ceilDiv_add_left _ _ hB, ihd]
        omega
    unfold readLoop
    rw [hfl]
    simp only
    have hfinish : ∀ (c2 : csvInputReader) (R : Nat), c2.batchSize = B → c2.batch.r.length ≤ B →
        c2.batch.r.length + R =
          c1.batch.r.length + (nonSkipped c.opts i (ReadResult.ok record :: rest)).length →
        ((readLoop env c2 tr1 (i + 1) rest).1 = none ∧
          (handoffs (readLoop env c2 tr1 (i + 1) rest).2.2).length =
            (handoffs tr1).length + ceilDiv (c2.batch.r.length + R) B ∧
          (∀ b ∈ handoffs (readLoop env c2 tr1 (i + 1) rest).2.2,
            b ∈ handoffs tr1 ∨ b.r ≠ []) ∧
          ∃ n, progressCalls (readLoop env c2 tr1 (i + 1) rest).2.2 =
              progressCalls tr1 ++ List.replicate n false ++ [true] ∧
            (n + 1 = ceilDiv (c2.batch.r.length + R) B ∨
              n = ceilDiv (c2.batch.r.length + R) B)) →
        ((readLoop env c2 tr1 (i + 1) rest).1 = none ∧
          (handoffs (readLoop env c2 tr1 (i + 1) rest).2.2).length =
            (handoffs tr).length +
              ceilDiv (c.batch.r.length +
                (nonSkipped c.opts i (ReadResult.ok record :: rest)).length) B ∧
          (∀ b ∈ handoffs (readLoop env c2 tr1 (i + 1) rest).2.2,
            b ∈ handoffs tr ∨ b.r ≠ []) ∧
          ∃ n, progressCalls (readLoop env c2 tr1 (i + 1) rest).2.2 =
              progressCalls tr ++ List.replicate n false ++ [true] ∧
            (n + 1 = ceilDiv (c.batch.r.length +
                (nonSkipped c.opts i (ReadResult.ok record :: rest)).length) B ∨
              n = ceilDiv (c.batch.r.length +
                (nonSkipped c.opts i (ReadResult.ok record :: rest)).length) B)) := by
      intro c2 R _ _ hR ⟨h1, h2, h3, n, h4, h5⟩
      rw [hceil, ← hR]
      refine ⟨h1, by rw [h2, hh]; omega, ?_, d + n, ?_, by omega⟩
      · intro b hb
        rcases h3 b hb with h | h
        · exact hne b h
        · exact Or.inr h
      · rw [h4, hp, List.replicate_add]
        simp
    by_cases hsk : skipped c.opts i = true
    · have hsk1 : skipped c1.opts i = true := by rw [hc1o]; exact hsk
      simp only [hsk1, if_true]
      have hval1 : ∀ p ∈ nonSkipped c1.opts (i + 1) rest,
          ∃ rec1, validate c1.expectedCols p.1 p.2 = Except.ok rec1 := by
        intro p hp
        rw [hc1o, hc1e] at *
        apply hval
        simp [nonSkipped, hsk, hp]
      have := ih c1 tr1 (i + 1) hc1B (by omega) hwf1 hval1
      rw [hc1o] at this
      exact hfinish c1 _ hc1B (by omega) (by simp [nonSkipped, hsk]) this
    · have hsk1 : ¬ skipped c1.opts i = true := by rw [hc1o]; exact hsk
      simp only [hsk1, if_false]
      obtain ⟨rec1, hrec1⟩ := hval (i, record) (by simp [nonSkipped, hsk])
      simp only at hrec1
      rw [hc1e, hrec1]
      simp only
      have hval1 : ∀ p ∈ nonSkipped (appendRecord c1 rec1).opts (i + 1) rest,
          ∃ rec2, validate (appendRecord c1 rec1).expectedCols p.1 p.2 = Except.ok rec2 := by
        intro p hp
        simp only [appendRecord, hc1o, hc1e] at hp ⊢
        apply hval
        simp [nonSkipped, hsk, hp]
      have := ih (appendRecord c1 rec1) tr1 (i + 1) (by simpa [appendRecord] using hc1B)
        (by simp [appendRecord]; omega) hwf1 hval1
      have ho : (appendRecord c1 rec1).opts = c.opts := by simp [appendRecord, hc1o]
      rw [ho] at this
      exact hfinish (appendRecord c1 rec1) _ (by simpa [appendRecord] using hc1B)
        (by simp [appendRecord]; omega) (by simp [appendRecord, nonSkipped, hsk]; omega) this

theorem handedOff_append (a b : List Event) : handedOff (a ++ b) = handedOff a ++ handedOff b := by
  simp [handedOff, handoffs_append, List.flatMap_append]

/-- A flush check that returns no error neither loses nor duplicates a
record: the records handed off and those still in the batch are the same as
before; after the final flush all of them are handed off. -/
theorem flushIfDue_content (env : Env) (c : csvInputReader) (tr : List Event) (i : Nat)
    (finished : Bool) (hok : (flushIfDue env c tr i finished).1 = none) :
    handedOff (flushIfDue env c tr i finished).2.2 ++
        (if finished = true then [] else (flushIfDue env c tr i finished).2.1.batch.r) =
      handedOff tr ++ c.batch.r := by
  unfold flushIfDue flushBatch at hok ⊢
  by_cases h1 : finished = true ∨ c.batchSize ≤ c.batch.r.length
  · by_cases h2 : 0 < c.batch.r.length ∧ env.ctxDone tr = true
    · simp [h1, h2] at hok
    · by_cases h3 : 0 < c.batch.r.length
      · cases hp : env.progFn (tr ++ [Event.handoff c.batch]) finished <;>
          cases finished <;> simp_all [handedOff, handoffs_append, handoffs]
      · have h4 : c.batch.r = [] := List.eq_nil_of_length_eq_zero (by omega)
        cases hp : env.progFn tr finished <;>
          cases finished <;> simp_all [handedOff, handoffs_append, handoffs]
  · have h2 : finished = false := by
      cases finished <;> simp_all
    subst h2
    have h3 : ¬ c.batchSize ≤ c.batch.r.length := fun h => h1 (Or.inr h)
    simp [h3]

/-- When the loop of `readFile` returns without error, the records handed
off are those handed off before, those of the current batch and the records
of the remaining input that are not skipped, cut to `expectedCols` fields,
in input order. -/
theorem readLoop_content (env : Env) (reads : List ReadResult) :
    ∀ (c : csvInputReader) (tr : List Event) (i : Nat),
      (readLoop env c tr i reads).1 = none →
      handedOff (readLoop env c tr i reads).2.2 =
        handedOff tr ++ c.batch.r ++
          (nonSkipped c.opts i reads).map (fun p => p.2.take c.expectedCols) := by
  induction reads with
  | nil =>
    intro c tr i hok
    have hc := flushIfDue_content env c tr i true
    unfold readLoop at hok ⊢
    rcases hres : flushIfDue env c tr i true with ⟨_ | e, c1, tr1⟩
    · rw [hres] at hc
      simpa [nonSkipped] using hc
    · simp [hres] at hok
  | cons rd rest ih =>
    intro c tr i hok
    have hc := flushIfDue_content env c tr i false
    obtain ⟨-, hs2, hs3, -⟩ := flushIfDue_shape env c tr i false
    unfold readLoop at hok ⊢
    rcases hres : flushIfDue env c tr i false with ⟨_ | e, c1, tr1⟩
    · rw [hres] at hc hs2 hs3
      simp only [hres] at hok ⊢
      simp only at hs2 hs3
      have hc1 := hc rfl
      simp only [Bool.false_eq_true, if_false] at hc1
      cases rd with
      | fail e => simp at hok
      | ok record =>
        simp only at hok ⊢
        by_cases hsk : skipped c1.opts i = true
        · simp only [hsk, if_true] at hok ⊢
          rw [ih c1 tr1 (i + 1) hok, hc1, hs2, hs3]
          rw [hs2] at hsk
          simp [nonSkipped, hsk]
        · simp only [hsk, if_false, Bool.false_eq_true] at hok ⊢
          cases hv : validate c1.expectedCols i record with
          | error e => simp [hv] at hok
          | ok rec1 =>
            simp only [hv] at hok ⊢
            rw [ih (appendRecord c1 rec1) tr1 (i + 1) hok]
            obtain ⟨hr, -⟩ := validate_ok hv
            rw [hs2] at hsk
            simp only [appendRecord, hs2, hs3, nonSkipped, hsk, if_false, List.map_cons]
            rw [← List.append_assoc (handedOff tr1), hc1, hr, hs3]
            simp
    · simp [hres] at hok

/-- Every record that the loop of `readFile` hands off has exactly
`expectedCols` fields, in any environment. -/
theorem readLoop_field_count (env : Env) (reads : List ReadResult) :
    ∀ (c : csvInputReader) (tr : List Event) (i : Nat),
      (∀ record ∈ c.batch.r, record.length = c.expectedCols) →
      (∀ record ∈ handedOff tr, record.length = c.expectedCols) →
      ∀ record ∈ handedOff (readLoop env c tr i reads).2.2, record.length = c.expectedCols := by
  have key : ∀ (c : csvInputReader) (tr : List Event) (i : Nat) (finished : Bool),
      (∀ record ∈ c.batch.r, record.length = c.expectedCols) →
      (∀ record ∈ handedOff tr, record.length = c.expectedCols) →
      (∀ record ∈ (flushIfDue env c tr i finished).2.1.batch.r,
        record.length = c.expectedCols) ∧
      (∀ record ∈ handedOff (flushIfDue env c tr i finished).2.2,
        record.length = c.expectedCols) := by
    intro c tr i finished hb htr
    obtain ⟨-, -, -, -, -, hr, hh⟩ := flushIfDue_shape env c tr i finished
    constructor
    · intro record hrec
      rcases hr with hr | hr
      · rw [hr] at hrec
        exact hb record hrec
      · rw [hr] at hrec
        simp at hrec
    · intro record hrec
      unfold handedOff at hrec
      rcases hh with hh | ⟨-, hh⟩
      · rw [hh] at hrec
        exact htr record hrec
      · rw [hh, List.flatMap_append] at hrec
        rcases List.mem_append.1 hrec with h | h
        · exact htr record h
        · simp at h
          exact hb record h
  induction reads with
  | nil =>
    intro c tr i hb htr record hrec
    have hk := (key c tr i true hb htr).2
    unfold readLoop at hrec
    rcases hres : flushIfDue env c tr i true with ⟨_ | e, c1, tr1⟩ <;>
      · rw [hres] at hk
        simp only [hres] at hrec
        exact hk record hrec
  | cons rd rest ih =>
    intro c tr i hb htr record hrec
    obtain ⟨hk1, hk2⟩ := key c tr i false hb htr
    obtain ⟨-, -, hs3, -⟩ := flushIfDue_shape env c tr i false
    unfold readLoop at hrec
    rcases hres : flushIfDue env c tr i false with ⟨_ | e, c1, tr1⟩
    · rw [hres] at hk1 hk2 hs3
      simp only [hres] at hrec
      simp only at hk1 hk2 hs3
      rw [← hs3] at hk1 hk2 ⊢
      cases rd with
      | fail e => exact hk2 record hrec
      | ok record1 =>
        simp only at hrec
        by_cases hsk : skipped c1.opts i = true
        · simp only [hsk, if_true] at hrec
          exact ih c1 tr1 (i + 1) hk1 hk2 record hrec
        · simp only [hsk, if_false, Bool.false_eq_true] at hrec
          cases hv : validate c1.expectedCols i record1 with
          | error e =>
            simp only [hv] at hrec
            exact hk2 record hrec
          | ok rec1 =>
            simp only [hv] at hrec
            obtain ⟨-, hl⟩ := validate_ok hv
            refine ih (appendRecord c1 rec1) tr1 (i + 1) ?_ hk2 record hrec
            intro r hr
            simp only [appendRecord, List.mem_append, List.mem_singleton] at hr ⊢
            rcases hr with hr | hr
            · exact hk1 r hr
            · rw [hr]; exact hl
    · rw [hres] at hk2
      simp only [hres] at hrec
      exact hk2 record hrec

/-! ### The skip test on long inputs -/

theorem nonSkipped_append (opts : CSVOptions) (a b : List ReadResult) :
    ∀ i : Nat, nonSkipped opts i (a ++ b) =
      nonSkipped opts i a ++ nonSkipped opts (i + a.length) b := by
  induction a with
  | nil => intro i; simp [nonSkipped]
  | cons rd a ih =>
    intro i
    cases rd with
    | ok record =>
      by_cases hsk : skipped opts i = true <;>
        simp [nonSkipped, hsk, ih (i + 1), Nat.add_assoc, Nat.add_comm 1]
    | fail e => simp [nonSkipped, ih (i + 1), Nat.add_assoc, Nat.add_comm 1]

/-- Equal records at positions that the skip test lets through are all
kept. -/
theorem nonSkipped_replicate_kept (opts : CSVOptions) (e : Nat) (record : List String) :
    ∀ (n i : Nat), (∀ m, m < n → skipped opts (i + m) = false) →
      (nonSkipped opts i (List.replicate n (ReadResult.ok record))).map
        (fun p => p.2.take e) = List.replicate n (record.take e) := by
  intro n
  induction n with
  | zero => intro i _; simp [nonSkipped]
  | succ n ih =>
    intro i h
    have h0 : skipped opts i = false := by simpa using h 0 (by omega)
    rw [List.replicate_succ, nonSkipped]
    simp only [h0, Bool.false_eq_true, if_false, List.map_cons, List.replicate_succ]
    rw [ih (i + 1) (by
      intro m hm
      have := h (m + 1) (by omega)
      simpa [Nat.add_assoc, Nat.add_comm 1] using this)]

/-- Records at positions that the skip test catches are all dropped. -/
theorem nonSkipped_replicate_skipped (opts : CSVOptions) (record : List String) :
    ∀ (n i : Nat), (∀ m, m < n → skipped opts (i + m) = true) →
      nonSkipped opts i (List.replicate n (ReadResult.ok record)) = [] := by
  intro n
  induction n with
  | zero => intro i _; simp [nonSkipped]
  | succ n ih =>
    intro i h
    have h0 : skipped opts i = true := by simpa using h 0 (by omega)
    rw [List.replicate_succ, nonSkipped]
    simp only [h0, if_true]
    exact ih (i + 1) (by
      intro m hm
      have := h (m + 1) (by omega)
      simpa [Nat.add_assoc, Nat.add_comm 1] using this)

/-- The records that are not skipped are records of the input. -/
theorem nonSkipped_mem (opts : CSVOptions) (reads : List ReadResult) :
    ∀ (i : Nat) (p : Nat × List String), p ∈ nonSkipped opts i reads →
      ReadResult.ok p.2 ∈ reads := by
  induction reads with
  | nil => intro i p h; simp [nonSkipped] at h
  | cons rd reads ih =>
    intro i p h
    cases rd with
    | ok record =>
      unfold nonSkipped at h
      by_cases hsk : skipped opts i = true
      · simp only [hsk, if_true] at h
        exact List.mem_cons_of_mem _ (ih (i + 1) p h)
      · simp only [hsk, if_false, Bool.false_eq_true, List.mem_cons] at h
        rcases h with h | h
        · subst h
          exact List.mem_cons_self _ _
        · exact List.mem_cons_of_mem _ (ih (i + 1) p h)
    | fail e =>
      unfold nonSkipped at h
      exact List.mem_cons_of_mem _ (ih (i + 1) p h)

/-- An input of `a + n + z` equal one-field records of which the skip test
catches the first `a` and the last `z` and lets the `n` between through, for
a reader that expects one column: `readFile` returns no error and hands off
`n` records. -/
theorem readFile_replicate (c : csvInputReader) (a n z : Nat) (hB : 1 ≤ c.batchSize)
    (he : c.expectedCols = 1)
    (ha : ∀ m, m < a → skipped c.opts (1 + m) = true)
    (hn : ∀ m, m < n → skipped c.opts (1 + a + m) = false)
    (hz : ∀ m, m < z → skipped c.opts (1 + a + n + m) = true) :
    (readFile Env.quiet c
      (List.replicate a (ReadResult.ok ["x"]) ++ List.replicate n (ReadResult.ok ["x"]) ++
        List.replicate z (ReadResult.ok ["x"])) 0 "data.csv").1 = none ∧
    handedOff (readFile Env.quiet c
      (List.replicate a (ReadResult.ok ["x"]) ++ List.replicate n (ReadResult.ok ["x"]) ++
        List.replicate z (ReadResult.ok ["x"])) 0 "data.csv").2.2 =
      List.replicate n ["x"] := by
  have hmem : ∀ rd ∈ List.replicate a (ReadResult.ok ["x"]) ++
      List.replicate n (ReadResult.ok ["x"]) ++ List.replicate z (ReadResult.ok ["x"]),
      rd = ReadResult.ok ["x"] := by
    intro rd hrd
    rcases List.mem_append.1 hrd with h | h
    · rcases List.mem_append.1 h with h | h
      · exact (List.mem_replicate.1 h).2
      · exact (List.mem_replicate.1 h).2
    · exact (List.mem_replicate.1 h).2
  have hok := (readLoop_quiet Env.quiet (fun _ => rfl) (fun _ _ => rfl) c.batchSize hB
    (List.replicate a (ReadResult.ok ["x"]) ++ List.replicate n (ReadResult.ok ["x"]) ++
      List.replicate z (ReadResult.ok ["x"]))
    { c with batch := { file := "data.csv", fileIndex := 0, rowOffset := 1, r := [] } }
    [] 1 rfl (by simp) (fun rd hrd => ⟨["x"], hmem rd hrd⟩)
    (by
      intro p hp
      have h1 := hmem _ (nonSkipped_mem _ _ 1 p hp)
      injection h1 with h1
      rw [h1]
      simp only [he]
      exact ⟨["x"], rfl⟩)).1
  refine ⟨hok, ?_⟩
  have hc := readLoop_content Env.quiet
    (List.replicate a (ReadResult.ok ["x"]) ++ List.replicate n (ReadResult.ok ["x"]) ++
      List.replicate z (ReadResult.ok ["x"]))
    { c with batch := { file := "data.csv", fileIndex := 0, rowOffset := 1, r := [] } }
    [] 1 hok
  unfold readFile
  rw [hc]
  simp only [he]
  rw [nonSkipped_append, nonSkipped_append, nonSkipped_replicate_skipped _ _ a 1 ha]
  simp only [List.length_append, List.length_replicate, List.nil_append, List.map_append]
  rw [nonSkipped_replicate_skipped _ _ z (1 + (a + n)) (by simpa [Nat.add_assoc] using hz),
    nonSkipped_replicate_kept c.opts 1 ["x"] n (1 + a) hn]
  simp [handedOff, handoffs]

/-! ### Inputs of fewer than `2^32` records -/

/-- Below `2^32` the skip test is `i <= Skip`. -/
theorem skipped_below_wrap (opts : CSVOptions) (i : Nat) (hi : i < 2 ^ 32) :
    skipped opts i = true ↔ i ≤ opts.Skip := by
  have h : i % 2 ^ 32 = i := Nat.mod_eq_of_lt hi
  simp only [skipped, decide_eq_true_eq, h]

/-- On an input that ends before position `2^32`, the records that are not
skipped are those at the positions greater than `Skip`. -/
theorem nonSkipped_below_wrap (opts : CSVOptions) (e : Nat) (reads : List ReadResult) :
    ∀ i : Nat, i + reads.length ≤ 2 ^ 32 →
      (nonSkipped opts i reads).map (fun p => p.2.take e) =
        (reads.drop (opts.Skip + 1 - i)).filterMap (normalised e) := by
  induction reads with
  | nil => intro i _; simp [nonSkipped]
  | cons rd reads ih =>
    intro i hi
    simp only [List.length_cons] at hi
    have hsk := skipped_below_wrap opts i (by omega)
    have ih1 := ih (i + 1) (by omega)
    by_cases hle : i ≤ opts.Skip
    · have hd : opts.Skip + 1 - i = (opts.Skip + 1 - (i + 1)) + 1 := by omega
      rw [hd, List.drop_succ_cons, ← ih1]
      cases rd with
      | ok record => simp [nonSkipped, hsk.2 hle]
      | fail err => simp [nonSkipped]
    · have hd : opts.Skip + 1 - i = 0 := by omega
      have hd1 : opts.Skip + 1 - (i + 1) = 0 := by omega
      rw [hd1] at ih1
      rw [hd]
      simp only [List.drop_zero] at ih1 ⊢
      have hns : ¬ skipped opts i = true := fun h => hle (hsk.1 h)
      cases rd with
      | ok record => simp [nonSkipped, hns, ih1, normalised]
      | fail err => simp [nonSkipped, ih1, normalised]

/-- On an input of fewer than `2^32` records on which `readFile` returns
without error, the batches handed off, concatenated in hand-off order, are
exactly the records at the positions greater than `Skip`, in input order,
each cut to `expectedCols` fields, and each of them has exactly
`expectedCols` fields. -/
theorem readFile_content_below_wrap (env : Env) (c : csvInputReader) (reads : List ReadResult)
    (inputIdx : Int) (inputName : String) (hlen : reads.length < 2 ^ 32)
    (hok : (readFile env c reads inputIdx inputName).1 = none) :
    handedOff (readFile env c reads inputIdx inputName).2.2 =
      (reads.drop c.opts.Skip).filterMap (normalised c.expectedCols) ∧
    ∀ record ∈ handedOff (readFile env c reads inputIdx inputName).2.2,
      record.length = c.expectedCols := by
  constructor
  · unfold readFile at hok ⊢
    rw [readLoop_content env reads _ [] 1 hok]
    simp only [handedOff, handoffs, List.flatMap_nil, List.nil_append]
    rw [nonSkipped_below_wrap c.opts c.expectedCols reads 1 (by omega)]
    simp
  · exact readLoop_field_count env reads
      { c with batch := { file := inputName, fileIndex := inputIdx, rowOffset := 1, r := [] } }
      [] 1 (by simp) (by simp [handedOff, handoffs])

/-- While the leading records are skipped the batch stays empty and nothing
is flushed, so a structural error of the tokenizer at a position `i` within
the first `Skip` positions makes the loop return the error of row `i`. -/
theorem readLoop_parse_error_in_skipped (env : Env) (e : String) (rest : List ReadResult)
    (pre : List ReadResult) :
    ∀ (c : csvInputReader) (tr : List Event) (i : Nat), 1 ≤ c.batchSize → c.batch.r = [] →
      (∀ rd ∈ pre, ∃ record, rd = ReadResult.ok record) →
      i + pre.length ≤ c.opts.Skip →
      readLoop env c tr i (pre ++ ReadResult.fail e :: rest) =
        (some (ImportError.readCSV (i + pre.length) e), c, tr) := by
  induction pre with
  | nil =>
    intro c tr i hB hr _ _
    have hnf : ¬ c.batchSize ≤ 0 := by omega
    simp [readLoop, flushIfDue, hr, hnf]
  | cons rd pre ih =>
    intro c tr i hB hr hpre hk
    obtain ⟨record, hrd⟩ := hpre rd (List.mem_cons_self _ _)
    subst hrd
    simp only [List.length_cons] at hk
    have hnf : ¬ c.batchSize ≤ 0 := by omega
    have hsk : skipped c.opts i = true := by
      simp only [skipped, decide_eq_true_eq]
      exact le_trans (Nat.mod_le _ _) (by omega)
    rw [List.cons_append, readLoop]
    simp only [flushIfDue, hr, List.length_nil, hnf, Bool.false_eq_true, or_self, if_false, hsk,
      if_true]
    rw [ih c tr (i + 1) hB hr (fun rd h => hpre rd (List.mem_cons_of_mem _ h)) (by omega)]
    simp [Nat.add_assoc, Nat.add_comm 1]

/-- A structural error of the tokenizer at a position within the first
`Skip` positions makes `readFile` return the error of that row, in every
environment, when the batch size is at least one. -/
theorem readFile_parse_error_in_skipped (env : Env) (c : csvInputReader)
    (pre : List ReadResult) (e : String) (rest : List ReadResult) (inputIdx : Int)
    (inputName : String) (hB : 1 ≤ c.batchSize)
    (hpre : ∀ rd ∈ pre, ∃ record, rd = ReadResult.ok record)
    (hk : pre.length + 1 ≤ c.opts.Skip) :
    (readFile env c (pre ++ ReadResult.fail e :: rest) inputIdx inputName).1 =
      some (ImportError.readCSV (pre.length + 1) e) := by
  unfold readFile
  rw [readLoop_parse_error_in_skipped env e rest pre
    { c with batch := { file := inputName, fileIndex := inputIdx, rowOffset := 1, r := [] } }
    [] 1 hB rfl hpre (by simp; omega)]
  simp [Nat.add_comm]

/-! ### Row offsets -/

/-- The batch and the hand-offs after a flush check before the end of the
input, in any environment: either nothing has changed, or the batch was
flushed; after a flush without error the batch is empty and starts at the
current position. -/
theorem flushIfDue_offset (env : Env) (c : csvInputReader) (tr : List Event) (i : Nat) :
    ((flushIfDue env c tr i false).2.1.batch = c.batch ∧
      handoffs (flushIfDue env c tr i false).2.2 = handoffs tr) ∨
    (((flushIfDue env c tr i false).1 = none →
        (flushIfDue env c tr i false).2.1.batch.r = [] ∧
        (flushIfDue env c tr i false).2.1.batch.rowOffset = i) ∧
      (handoffs (flushIfDue env c tr i false).2.2 = handoffs tr ∨
        handoffs (flushIfDue env c tr i false).2.2 = handoffs tr ++ [c.batch])) := by
  unfold flushIfDue flushBatch
  by_cases h1 : c.batchSize ≤ c.batch.r.length
  · right
    by_cases h2 : 0 < c.batch.r.length ∧ env.ctxDone tr = true
    · simp [h1, h2]
    · by_cases h3 : 0 < c.batch.r.length
      · cases hp : env.progFn (tr ++ [Event.handoff c.batch]) false <;>
          simp_all [handoffs_append, handoffs]
      · cases hp : env.progFn tr false <;> simp_all [handoffs_append, handoffs]
  · left
    simp [h1]

/-- The loop invariant behind the row numbers, on an input that ends before
position `2^32`: every batch that starts beyond the skipped positions
numbers its records by their positions. `done` are the results read before
iteration `i`. -/
theorem readLoop_row_numbers (env : Env) (remaining : List ReadResult) :
    ∀ (done : List ReadResult) (c : csvInputReader) (tr : List Event) (i : Nat),
      i = done.length + 1 → done.length + remaining.length < 2 ^ 32 →
      (∀ b ∈ handoffs tr, c.opts.Skip < b.rowOffset →
        numbersByPosition c.expectedCols (done ++ remaining) b) →
      (c.opts.Skip < c.batch.rowOffset →
        c.batch.rowOffset + c.batch.r.length = i ∧
        numbersByPosition c.expectedCols (done ++ remaining) c.batch) →
      ∀ b ∈ handoffs (readLoop env c tr i remaining).2.2, c.opts.Skip < b.rowOffset →
        numbersByPosition c.expectedCols (done ++ remaining) b := by
  induction remaining with
  | nil =>
    intro done c tr i _ _ htr hcur b hb
    obtain ⟨-, -, -, -, -, -, hh⟩ := flushIfDue_shape env c tr i true
    have hb' : b ∈ handoffs (flushIfDue env c tr i true).2.2 := by
      unfold readLoop at hb
      rcases hres : flushIfDue env c tr i true with ⟨_ | e, c1, tr1⟩ <;> simp_all
    rcases hh with hh | ⟨-, hh⟩
    · rw [hh] at hb'
      exact htr b hb'
    · rw [hh] at hb'
      rcases List.mem_append.1 hb' with h | h
      · exact htr b h
      · simp at h
        subst h
        exact fun hk => (hcur hk).2
  | cons rd rest ih =>
    intro done c tr i hi hlen htr hcur b hb
    simp only [List.length_cons] at hlen
    obtain ⟨-, hs2, hs3, -⟩ := flushIfDue_shape env c tr i false
    have hoff := flushIfDue_offset env c tr i
    have happ : done ++ rd :: rest = (done ++ [rd]) ++ rest := by simp
    unfold readLoop at hb
    rcases hres : flushIfDue env c tr i false with ⟨_ | e, c1, tr1⟩
    · rw [hres] at hs2 hs3 hoff
      simp only [hres] at hb
      simp only at hs2 hs3 hoff
      have htr1 : ∀ b ∈ handoffs tr1, c.opts.Skip < b.rowOffset →
          numbersByPosition c.expectedCols (done ++ rd :: rest) b := by
        intro b1 hb1
        rcases hoff with ⟨-, hh⟩ | ⟨-, hh | hh⟩
        · rw [hh] at hb1; exact htr b1 hb1
        · rw [hh] at hb1; exact htr b1 hb1
        · rw [hh] at hb1
          rcases List.mem_append.1 hb1 with h | h
          · exact htr b1 h
          · simp at h
            subst h
            exact fun hk => (hcur hk).2
      have hcur1 : c.opts.Skip < c1.batch.rowOffset →
          c1.batch.rowOffset + c1.batch.r.length = i ∧
          numbersByPosition c.expectedCols (done ++ rd :: rest) c1.batch := by
        intro hk
        rcases hoff with ⟨hbatch, -⟩ | ⟨hflushed, -⟩
        · rw [hbatch] at hk ⊢
          exact hcur hk
        · obtain ⟨hr, ho⟩ := hflushed trivial
          refine ⟨by rw [hr, ho]; rfl, ?_⟩
          intro j record hj
          rw [hr] at hj
          simp at hj
      cases rd with
      | fail e => exact htr1 b hb
      | ok record =>
        simp only at hb
        have hsk := skipped_below_wrap c.opts i (by omega)
        rw [hs2] at hb
        by_cases hskip : skipped c.opts i = true
        · simp only [hskip, if_true] at hb
          have := ih (done ++ [ReadResult.ok record]) c1 tr1 (i + 1) (by simp; omega)
            (by simp; omega) (by rw [hs2, hs3, ← happ]; exact htr1)
            (by
              rw [hs2, hs3, ← happ]
              intro hk
              have h1 := (hcur1 hk).1
              have h2 := hsk.1 hskip
              omega) b hb
          rw [hs2, hs3, ← happ] at this
          exact this
        · simp only [hskip, if_false, Bool.false_eq_true] at hb
          cases hv : validate c1.expectedCols i record with
          | error e =>
            simp only [hv] at hb
            exact htr1 b hb
          | ok rec1 =>
            simp only [hv] at hb
            obtain ⟨hrec, -⟩ := validate_ok hv
            have := ih (done ++ [ReadResult.ok record]) (appendRecord c1 rec1) tr1 (i + 1)
              (by simp; omega) (by simp; omega)
              (by simp only [appendRecord, hs2, hs3]; rw [← happ]; exact htr1)
              (by
                simp only [appendRecord, hs2, hs3, List.length_append, List.length_singleton]
                rw [← happ]
                intro hk
                obtain ⟨h1, h2⟩ := hcur1 hk
                refine ⟨by omega, ?_⟩
                intro j r hj
                by_cases hjl : j < c1.batch.r.length
                · exact h2 j r (by rwa [List.getElem?_append_left hjl] at hj)
                · have hjl' : j = c1.batch.r.length := by
                    by_contra hne
                    rw [List.getElem?_eq_none (by simp; omega)] at hj
                    exact Option.noConfusion hj
                  subst hjl'
                  rw [List.getElem?_append_right (le_refl _)] at hj
                  simp at hj
                  subst hj
                  refine ⟨record, ?_, by rw [hrec, hs3]⟩
                  have hpos : c1.batch.rowOffset + c1.batch.r.length - 1 = done.length := by
                    omega
                  rw [hpos, List.getElem?_append_right (le_refl _)]
                  simp) b hb
            simp only [appendRecord, hs2, hs3] at this
            rw [← happ] at this
            exact this
    · simp only [hres] at hb
      obtain ⟨-, -, -, -, -, -, hh⟩ := flushIfDue_shape env c tr i false
      rw [hres] at hh
      simp only at hh
      rcases hh with hh | ⟨-, hh⟩
      · rw [hh] at hb
        exact htr b hb
      · rw [hh] at hb
        rcases List.mem_append.1 hb with h | h
        · exact htr b h
        · simp at h
          subst h
          exact fun hk => (hcur hk).2

/-- On an input of fewer than `2^32` records, every batch that `readFile`
hands off with a row offset beyond the skipped positions numbers its records
by their positions: `convertRecord` computes, for its record of index `j`,
the row number `rowOffset + j` of the position of that record in the input.
When no leading record is skipped, these are all batches. -/
theorem readFile_row_numbers (env : Env) (c : csvInputReader) (reads : List ReadResult)
    (inputIdx : Int) (inputName : String) (hlen : reads.length < 2 ^ 32) :
    ∀ b ∈ handoffs (readFile env c reads inputIdx inputName).2.2, c.opts.Skip < b.rowOffset →
      numbersByPosition c.expectedCols reads b := by
  intro b hb hk
  exact readLoop_row_numbers env reads []
    { c with batch := { file := inputName, fileIndex := inputIdx, rowOffset := 1, r := [] } }
    [] 1 rfl (by simpa using hlen) (by simp [handoffs])
    (by
      intro _
      refine ⟨rfl, ?_⟩
      intro j record hj
      simp at hj) b hb hk

end importccl
namespace importccl

/-! ## Producer: field-count validation and batch sizes -/

/-- C2: in the iteration of `readFile` for a record at position `i` that is
not skipped and that reaches the validation (the flush check of the iteration
returned no error and left the reader `c1` and the trace `tr1`): a record of
exactly `expectedCols` fields is appended unchanged; a record of
`expectedCols + 1` fields whose last field is empty is appended as its first
`expectedCols` fields, and the run is the one of the record without the
trailing field; any other record makes `readFile` return the field-count
error for row `i` with the expected and the actual count, the batch being
left as it was. On the tokenization of `1,2 / 3,4 / bad / 5,6` with two
expected columns the error is the one of row 3, expected 2, actual 1,
whatever the batch size. -/
theorem readFile_validation (env : Env) (c c1 : csvInputReader) (tr tr1 : List Event) (i : Nat)
    (record : List String) (rest : List ReadResult)
    (hflush : flushIfDue env c tr i false = (none, c1, tr1))
    (hskip : skipped c.opts i = false) :
    (record.length = c.expectedCols →
      readLoop env c tr i (ReadResult.ok record :: rest) =
        readLoop env (appendRecord c1 record) tr1 (i + 1) rest) ∧
    (record.length = c.expectedCols + 1 → record[c.expectedCols]? = some "" →
      readLoop env c tr i (ReadResult.ok record :: rest) =
        readLoop env (appendRecord c1 (record.take c.expectedCols)) tr1 (i + 1) rest ∧
      readLoop env c tr i (ReadResult.ok record :: rest) =
        readLoop env c tr i (ReadResult.ok (record.take c.expectedCols) :: rest)) ∧
    (record.length ≠ c.expectedCols →
      ¬ (record.length = c.expectedCols + 1 ∧ record[c.expectedCols]? = some "") →
      readLoop env c tr i (ReadResult.ok record :: rest) =
        (some (ImportError.fieldCount i c.expectedCols record.length), c1, tr1)) ∧
    (∀ B : Nat,
      (readFile Env.quiet ((newCSVInputReader ⟨0, none⟩ 2).withBatchSize B)
        [ReadResult.ok ["1", "2"], ReadResult.ok ["3", "4"], ReadResult.ok ["bad"],
          ReadResult.ok ["5", "6"]] 0 "data.csv").1 = some (ImportError.fieldCount 3 2 1)) := by
  obtain ⟨-, hopts, hexp, -⟩ := flushIfDue_shape env c tr i false
  rw [hflush] at hopts hexp
  simp only at hopts hexp
  have hskip1 : skipped c1.opts i = false := by rw [hopts]; exact hskip
  refine ⟨?_, ?_, ?_, ?_⟩
  · intro hlen
    rw [readLoop, hflush]
    simp [hskip1, validate, hexp, hlen]
  · intro hlen hlast
    have h1 : readLoop env c tr i (ReadResult.ok record :: rest) =
        readLoop env (appendRecord c1 (record.take c.expectedCols)) tr1 (i + 1) rest := by
      rw [readLoop, hflush]
      simp [hskip1, validate, hexp, hlen, hlast]
    refine ⟨h1, ?_⟩
    rw [h1, readLoop, hflush]
    simp [hskip1, validate, hexp, hlen]
  · intro hne hnot
    rw [readLoop, hflush]
    simp [hskip1, validate, hexp, hne, hnot]
  · intro B
    simp only [readFile, newCSVInputReader, csvInputReader.withBatchSize, readLoop,
      flushIfDue_quiet Env.quiet _ _ _ _ (fun _ => rfl) (fun _ _ => rfl)]
    by_cases h0 : B = 0
    · subst h0
      simp [skipped, validate, appendRecord]
    · by_cases h1 : B = 1
      · subst h1
        simp [skipped, validate, appendRecord]
      · by_cases h2 : B = 2
        · subst h2
          simp [skipped, validate, appendRecord]
        · have h3 : ¬ B ≤ 0 := by omega
          have h4 : ¬ B ≤ 1 := by omega
          have h5 : ¬ B ≤ 2 := by omega
          simp [skipped, validate, appendRecord, h3, h4, h5]

/-- The validation statement at the third record of the sample input with
the batch size 2: the full batch is flushed first, then the record `bad` is
refused. -/
theorem readFile_validation_witness :
    readLoop Env.quiet
        { (newCSVInputReader ⟨0, none⟩ 2).withBatchSize 2 with
          batch := { r := [["1", "2"], ["3", "4"]], file := "data.csv", fileIndex := 0,
                     rowOffset := 1 } }
        [] 3 [ReadResult.ok ["bad"], ReadResult.ok ["5", "6"]] =
      (some (ImportError.fieldCount 3 2 1),
        { (newCSVInputReader ⟨0, none⟩ 2).withBatchSize 2 with
          batch := { r := [], file := "data.csv", fileIndex := 0, rowOffset := 3 } },
        [Event.handoff { r := [["1", "2"], ["3", "4"]], file := "data.csv", fileIndex := 0,
                         rowOffset := 1 },
          Event.progress false]) :=
  (readFile_validation Env.quiet
    { (newCSVInputReader ⟨0, none⟩ 2).withBatchSize 2 with
      batch := { r := [["1", "2"], ["3", "4"]], file := "data.csv", fileIndex := 0,
                 rowOffset := 1 } }
    { (newCSVInputReader ⟨0, none⟩ 2).withBatchSize 2 with
      batch := { r := [], file := "data.csv", fileIndex := 0, rowOffset := 3 } }
    []
    [Event.handoff { r := [["1", "2"], ["3", "4"]], file := "data.csv", fileIndex := 0,
                     rowOffset := 1 },
      Event.progress false]
    3 ["bad"] [ReadResult.ok ["5", "6"]] (by decide) (by decide)).2.2.1
    (by decide) (by decide)

/-- C7: with a batch size of at least one, every batch that `readFile` hands
off through the queue holds at least one and at most `batchSize` records,
for every input, skip count and environment; on an empty batch `flushBatch`
hands nothing off, and an iteration that is not the one of the end of input
(`finished = false`) does not flush an empty batch at all. -/
theorem readFile_batch_size (env : Env) (c : csvInputReader) (reads : List ReadResult)
    (inputIdx : Int) (inputName : String) (hB : 1 ≤ c.batchSize) :
    (∀ b ∈ handoffs (readFile env c reads inputIdx inputName).2.2,
      1 ≤ b.r.length ∧ b.r.length ≤ c.batchSize) ∧
    (∀ (c1 : csvInputReader) (tr : List Event) (finished : Bool), c1.batch.r = [] →
      handoffs (flushBatch env c1 tr finished).2.2 = handoffs tr) ∧
    (∀ (c1 : csvInputReader) (tr : List Event) (i : Nat), c1.batchSize = c.batchSize →
      c1.batch.r = [] → flushIfDue env c1 tr i false = (none, c1, tr)) := by
  refine ⟨?_, ?_, ?_⟩
  · exact readLoop_handoffs_bound env c.batchSize hB reads _ [] 1 rfl (by simp)
      (by simp [handoffs])
  · intro c1 tr finished hr
    unfold flushBatch
    cases hp : env.progFn tr finished <;> cases finished <;>
      simp [hr, hp, handoffs_append, handoffs]
  · intro c1 tr i hb hr
    unfold flushIfDue
    have : ¬ c1.batchSize ≤ 0 := by omega
    simp [hr, this]

/-- The batch-size statement on a five-record input with batch size 2. -/
theorem readFile_batch_size_witness :
    1 ≤ ((newCSVInputReader ⟨1, none⟩ 1).withBatchSize 2).batchSize ∧
    ∀ b ∈ handoffs (readFile Env.quiet ((newCSVInputReader ⟨1, none⟩ 1).withBatchSize 2)
        [ReadResult.ok ["h"], ReadResult.ok ["a"], ReadResult.ok ["b"], ReadResult.ok ["c"],
          ReadResult.ok ["d", ""]] 0 "data.csv").2.2,
      1 ≤ b.r.length ∧ b.r.length ≤ ((newCSVInputReader ⟨1, none⟩ 1).withBatchSize 2).batchSize :=
  ⟨by decide, (readFile_batch_size Env.quiet ((newCSVInputReader ⟨1, none⟩ 1).withBatchSize 2)
    [ReadResult.ok ["h"], ReadResult.ok ["a"], ReadResult.ok ["b"], ReadResult.ok ["c"],
      ReadResult.ok ["d", ""]] 0 "data.csv" (by decide)).1⟩

/-! ## Producer: number of flushes -/

/-- C3: on a well-formed input whose non-skipped records (there are `R` of
them) all pass the validation, with a batch size `B` of at least one, a
context that is never done and a progress callback that never fails,
`readFile` returns no error, hands off exactly `ceilDiv R B` batches, none of
them empty, and the progress callback is called with `false` on every call
but the last and with `true` on the last, which is the call of the flush at
the end of the input: there is one call per batch handed off, and one more
when the batch is empty at the end of the input. Every call of `flushBatch`
makes exactly one progress call, after its hand-off, with its own
`finished` flag. -/
theorem readFile_flush_count (env : Env) (c : csvInputReader) (reads : List ReadResult)
    (inputIdx : Int) (inputName : String) (hB : 1 ≤ c.batchSize)
    (hctx : ∀ t, env.ctxDone t = false) (hprog : ∀ t f, env.progFn t f = none)
    (hwf : ∀ rd ∈ reads, ∃ record, rd = ReadResult.ok record)
    (hval : ∀ p ∈ nonSkipped c.opts 1 reads,
      ∃ rec1, validate c.expectedCols p.1 p.2 = Except.ok rec1) :
    (readFile env c reads inputIdx inputName).1 = none ∧
    (handoffs (readFile env c reads inputIdx inputName).2.2).length =
      ceilDiv (nonSkipped c.opts 1 reads).length c.batchSize ∧
    (∀ b ∈ handoffs (readFile env c reads inputIdx inputName).2.2, b.r ≠ []) ∧
    (∃ n, progressCalls (readFile env c reads inputIdx inputName).2.2 =
        List.replicate n false ++ [true] ∧
      (n + 1 = ceilDiv (nonSkipped c.opts 1 reads).length c.batchSize ∨
        n = ceilDiv (nonSkipped c.opts 1 reads).length c.batchSize)) ∧
    (∀ (c1 : csvInputReader) (tr : List Event) (finished : Bool),
      ∃ sent, (sent = [] ∨ sent = [Event.handoff c1.batch]) ∧
        (flushBatch env c1 tr finished).2.2 = tr ++ sent ++ [Event.progress finished]) := by
  obtain ⟨h1, h2, h3, n, h4, h5⟩ := readLoop_quiet env hctx hprog c.batchSize hB reads
    { c with batch := { file := inputName, fileIndex := inputIdx, rowOffset := 1, r := [] } }
    [] 1 rfl (by simp) hwf hval
  refine ⟨h1, ?_, ?_, ⟨n, ?_, ?_⟩, ?_⟩
  · simpa [handoffs] using h2
  · intro b hb
    rcases h3 b hb with h | h
    · simp [handoffs] at h
    · exact h
  · simpa [progressCalls] using h4
  · simpa using h5
  · intro c1 tr finished
    rw [flushBatch_quiet env c1 tr finished hctx hprog]
    by_cases hpos : 0 < c1.batch.r.length
    · exact ⟨[Event.handoff c1.batch], Or.inr rfl, by simp [hpos]⟩
    · exact ⟨[], Or.inl rfl, by simp [hpos]⟩

/-- The flush count on a header line and five records with batch size 2:
three batches, progress calls `false, false, true`. -/
theorem readFile_flush_count_witness :
    (readFile Env.quiet ((newCSVInputReader ⟨1, none⟩ 1).withBatchSize 2)
      [ReadResult.ok ["h"], ReadResult.ok ["a"], ReadResult.ok ["b"], ReadResult.ok ["c"],
        ReadResult.ok ["d", ""], ReadResult.ok ["e"]] 0 "data.csv").1 = none ∧
    (handoffs (readFile Env.quiet ((newCSVInputReader ⟨1, none⟩ 1).withBatchSize 2)
      [ReadResult.ok ["h"], ReadResult.ok ["a"], ReadResult.ok ["b"], ReadResult.ok ["c"],
        ReadResult.ok ["d", ""], ReadResult.ok ["e"]] 0 "data.csv").2.2).length =
      ceilDiv (nonSkipped ((newCSVInputReader ⟨1, none⟩ 1).withBatchSize 2).opts 1
        [ReadResult.ok ["h"], ReadResult.ok ["a"], ReadResult.ok ["b"], ReadResult.ok ["c"],
          ReadResult.ok ["d", ""], ReadResult.ok ["e"]]).length
        ((newCSVInputReader ⟨1, none⟩ 1).withBatchSize 2).batchSize :=
  have h := readFile_flush_count Env.quiet ((newCSVInputReader ⟨1, none⟩ 1).withBatchSize 2)
    [ReadResult.ok ["h"], ReadResult.ok ["a"], ReadResult.ok ["b"], ReadResult.ok ["c"],
      ReadResult.ok ["d", ""], ReadResult.ok ["e"]] 0 "data.csv" (by decide)
    (fun _ => rfl) (fun _ _ => rfl) (by simp)
    (by simp [nonSkipped, skipped, validate, newCSVInputReader, csvInputReader.withBatchSize])
  ⟨h.1, h.2.1⟩

/-! ## Producer: row numbers and skipped records -/

/-- C1 at a failing input: a header line to skip and two records, batch size
500. The batch handed off holds the records of lines 2 and 3 but has the row
offset 1, so `convertRecord` gives them the row numbers 1 and 2. With batch
size 1 the record of line 3 starts a batch of its own, with row offset 3:
its row number depends on the batch boundaries. -/
theorem readFile_row_offset_ignores_skip :
    handoffs (readFile Env.quiet (newCSVInputReader ⟨1, none⟩ 2)
        [ReadResult.ok ["id", "name"], ReadResult.ok ["1", "a"], ReadResult.ok ["2", "b"]]
        0 "data.csv").2.2 =
      [{ r := [["1", "a"], ["2", "b"]], file := "data.csv", fileIndex := 0, rowOffset := 1 }] ∧
    emitted (convertRecord (sampleDeps []) ⟨1, none⟩
        [{ r := [["1", "a"], ["2", "b"]], file := "data.csv", fileIndex := 0,
           rowOffset := 1 }]).2 =
      [(0, 1, [SampleDatum.DInt "1", SampleDatum.DString "a"]),
        (0, 2, [SampleDatum.DInt "2", SampleDatum.DString "b"])] ∧
    handoffs (readFile Env.quiet ((newCSVInputReader ⟨1, none⟩ 2).withBatchSize 1)
        [ReadResult.ok ["id", "name"], ReadResult.ok ["1", "a"], ReadResult.ok ["2", "b"]]
        0 "data.csv").2.2 =
      [{ r := [["1", "a"]], file := "data.csv", fileIndex := 0, rowOffset := 1 },
        { r := [["2", "b"]], file := "data.csv", fileIndex := 0, rowOffset := 3 }] :=
  ⟨by decide, by decide, by decide⟩

/-- C4 at a failing input: `2^32 + 1` one-field records with one leading
record to skip. The skip test `uint32(i) <= 1` also catches the positions
`2^32` and `2^32 + 1`, so of the `2^32` records at positions greater than 1
only `2^32 - 2` are handed off. -/
theorem readFile_skips_after_uint32_wrap :
    skipped ⟨1, none⟩ 4294967296 = true ∧ skipped ⟨1, none⟩ 4294967297 = true ∧
    (readFile Env.quiet (newCSVInputReader ⟨1, none⟩ 1)
      (List.replicate 4294967297 (ReadResult.ok ["x"])) 0 "data.csv").1 = none ∧
    handedOff (readFile Env.quiet (newCSVInputReader ⟨1, none⟩ 1)
      (List.replicate 4294967297 (ReadResult.ok ["x"])) 0 "data.csv").2.2 =
      List.replicate 4294967294 ["x"] := by
  have hsplit : List.replicate 4294967297 (ReadResult.ok ["x"]) =
      List.replicate 1 (ReadResult.ok ["x"]) ++ List.replicate 4294967294 (ReadResult.ok ["x"]) ++
        List.replicate 2 (ReadResult.ok ["x"]) := by
    rw [← List.replicate_add, ← List.replicate_add]
  rw [hsplit]
  refine ⟨by decide, by decide, ?_⟩
  refine readFile_replicate (newCSVInputReader ⟨1, none⟩ 1) 1 4294967294 2 (by decide) rfl
    ?_ ?_ ?_
  · intro m hm
    simp only [skipped, newCSVInputReader, decide_eq_true_eq]
    omega
  · intro m hm
    simp only [skipped, newCSVInputReader, decide_eq_false_iff_not]
    omega
  · intro m hm
    simp only [skipped, newCSVInputReader, decide_eq_true_eq]
    omega

/-- C10 at a failing input: `2^32` one-field records and no record to skip.
`readFile` returns without error, but the skip test `uint32(i) <= 0` catches
the position `2^32`: only `2^32 - 1` records are handed off, the record at
position `2^32` is lost. -/
theorem readFile_loses_record_at_uint32_wrap :
    skipped ⟨0, none⟩ 4294967296 = true ∧
    (readFile Env.quiet (newCSVInputReader ⟨0, none⟩ 1)
      (List.replicate 4294967296 (ReadResult.ok ["x"])) 0 "data.csv").1 = none ∧
    handedOff (readFile Env.quiet (newCSVInputReader ⟨0, none⟩ 1)
      (List.replicate 4294967296 (ReadResult.ok ["x"])) 0 "data.csv").2.2 =
      List.replicate 4294967295 ["x"] := by
  have hsplit : List.replicate 4294967296 (ReadResult.ok ["x"]) =
      List.replicate 0 (ReadResult.ok ["x"]) ++ List.replicate 4294967295 (ReadResult.ok ["x"]) ++
        List.replicate 1 (ReadResult.ok ["x"]) := by
    rw [← List.replicate_add, ← List.replicate_add]
  rw [hsplit]
  refine ⟨by decide, ?_⟩
  refine readFile_replicate (newCSVInputReader ⟨0, none⟩ 1) 0 4294967295 1 (by decide) rfl
    ?_ ?_ ?_
  · intro m hm
    omega
  · intro m hm
    simp only [skipped, newCSVInputReader, decide_eq_false_iff_not]
    omega
  · intro m hm
    simp only [skipped, newCSVInputReader, decide_eq_true_eq]
    omega

end importccl
namespace importccl

/-! ## Converter: basic facts -/

section converter

variable {D T : Type}

theorem take_succ_set {α : Type} (l : List α) (i : Nat) (x : α) (h : i < l.length) :
    (l.set i x).take (i + 1) = l.take i ++ [x] := by
  rw [List.take_succ, List.getElem?_set, if_pos rfl, if_pos h, List.set_take,
    List.set_eq_of_length_le (by simp)]
  rfl

/-- The body of the field loop when the field has a visible column and a
slot in the datums buffer. -/
theorem convertField_eq (deps : Deps D T) (opts : CSVOptions) (file : String) (rowNum : Nat)
    (conv : rowConverter D T) (i : Nat) (v : String) (col : ColumnDescriptor T)
    (hcol : conv.visibleCols[i]? = some col) (hi : i < conv.datums.length) :
    convertField deps opts file rowNum conv i v =
      ((if opts.NullEncoding = some v then Outcome.nil
        else
          match (deps.ParseDatumStringAs col.Typ v).2 with
          | some e =>
            Outcome.error
              (ImportError.parse file rowNum col.Name (deps.SQLString col.Typ) e)
          | none => Outcome.nil),
        { conv with datums := conv.datums.set i (decodeField deps opts col.Typ v) }) := by
  unfold convertField decodeField
  rw [hcol]
  by_cases hn : opts.NullEncoding = some v
  · simp [hn, hi]
  · simp only [hn, if_false, hi, if_true]
    cases (deps.ParseDatumStringAs col.Typ v).2 <;> rfl

/-- The field loop on fields that all have a visible column and a slot and
that all decode: it ends normally and the datums buffer holds the decoded
fields in the slots `i`, `i + 1`, ... and is unchanged elsewhere. -/
theorem convertFields_ok (deps : Deps D T) (opts : CSVOptions) (file : String) (rowNum : Nat)
    (vs : List String) :
    ∀ (conv : rowConverter D T) (i : Nat),
      i + vs.length ≤ conv.visibleCols.length → i + vs.length ≤ conv.datums.length →
      (∀ n v col, vs[n]? = some v → conv.visibleCols[i + n]? = some col →
        ¬ failsToDecode deps opts col.Typ v) →
      convertFields deps opts file rowNum conv i vs =
        (Outcome.nil,
          { conv with
            datums := conv.datums.take i ++
              List.zipWith (fun col v => decodeField deps opts col.Typ v)
                (conv.visibleCols.drop i) vs ++
              conv.datums.drop (i + vs.length) }) := by
  induction vs with
  | nil =>
    intro conv i _ _ _
    simp [convertFields]
  | cons v vs ih =>
    intro conv i hc hd hok
    simp only [List.length_cons] at hc hd
    have hic : i < conv.visibleCols.length := by omega
    have hcol : conv.visibleCols[i]? = some conv.visibleCols[i] := List.getElem?_eq_getElem hic
    have hnf := hok 0 v conv.visibleCols[i] (by simp) (by simp)
    unfold convertFields
    rw [convertField_eq deps opts file rowNum conv i v _ hcol (by omega)]
    have hout : (if opts.NullEncoding = some v then Outcome.nil
        else
          match (deps.ParseDatumStringAs conv.visibleCols[i].Typ v).2 with
          | some e =>
            Outcome.error (ImportError.parse file rowNum conv.visibleCols[i].Name
              (deps.SQLString conv.visibleCols[i].Typ) e)
          | none => Outcome.nil) = Outcome.nil := by
      by_cases hn : opts.NullEncoding = some v
      · simp [hn]
      · have : (deps.ParseDatumStringAs conv.visibleCols[i].Typ v).2 = none := by
          by_contra hne
          exact hnf ⟨hn, hne⟩
        simp [hn, this]
    rw [hout]
    simp only
    rw [ih _ (i + 1) (by simp; omega) (by simp; omega)]
    · simp only [List.length_set]
      congr 2
      rw [List.drop_eq_getElem_cons hic, List.zipWith_cons_cons,
        List.drop_set_of_lt _ _ (by omega), take_succ_set _ _ _ (by omega)]
      simp [Nat.add_assoc, Nat.add_comm 1]
    · intro n v' col hv hcol'
      apply hok (n + 1) v' col
      · simpa using hv
      · simpa [Nat.add_assoc, Nat.add_comm 1] using hcol'

/-- The field loop from the first field on, when all fields decode: the
datums buffer afterwards is `decodedRow`. -/
theorem convertFields_decodedRow (deps : Deps D T) (opts : CSVOptions) (file : String)
    (rowNum : Nat) (conv : rowConverter D T) (vs : List String)
    (hc : vs.length ≤ conv.visibleCols.length) (hd : vs.length ≤ conv.datums.length)
    (hok : ∀ (n : Nat) (v : String) (col : ColumnDescriptor T), vs[n]? = some v →
      conv.visibleCols[n]? = some col → ¬ failsToDecode deps opts col.Typ v) :
    convertFields deps opts file rowNum conv 0 vs =
      (Outcome.nil,
        { conv with datums := decodedRow deps opts conv.visibleCols conv.datums vs }) := by
  rw [convertFields_ok deps opts file rowNum vs conv 0 (by omega) (by omega)
    (by simpa using hok)]
  simp [decodedRow]

/-- The field loop on fields of which the first ones decode and the next one
does not: it returns the decoder's error for that field. -/
theorem convertFields_fail (deps : Deps D T) (opts : CSVOptions) (file : String) (rowNum : Nat)
    (pre : List String) (v : String) (post : List String) (col : ColumnDescriptor T)
    (e : String) :
    ∀ (conv : rowConverter D T) (i : Nat),
      i + pre.length < conv.datums.length →
      conv.visibleCols[i + pre.length]? = some col →
      (∀ n v1 col1, pre[n]? = some v1 → conv.visibleCols[i + n]? = some col1 →
        ¬ failsToDecode deps opts col1.Typ v1) →
      opts.NullEncoding ≠ some v → (deps.ParseDatumStringAs col.Typ v).2 = some e →
      (convertFields deps opts file rowNum conv i (pre ++ v :: post)).1 =
        Outcome.error (ImportError.parse file rowNum col.Name (deps.SQLString col.Typ) e) := by
  induction pre with
  | nil =>
    intro conv i hd hcol _ hn he
    simp only [List.length_nil, Nat.add_zero] at hd hcol
    simp only [List.nil_append]
    unfold convertFields
    rw [convertField_eq deps opts file rowNum conv i v col hcol hd]
    simp [hn, he]
  | cons v0 pre ih =>
    intro conv i hd hcol hok hn he
    simp only [List.length_cons] at hd hcol
    have hlt : i + (pre.length + 1) < conv.visibleCols.length := by
      by_contra hge
      rw [List.getElem?_eq_none (by omega)] at hcol
      exact Option.noConfusion hcol
    have hic : i < conv.visibleCols.length := by omega
    have hcol0 : conv.visibleCols[i]? = some conv.visibleCols[i] := List.getElem?_eq_getElem hic
    have hnf := hok 0 v0 conv.visibleCols[i] (by simp) (by simp)
    simp only [List.cons_append]
    unfold convertFields
    rw [convertField_eq deps opts file rowNum conv i v0 _ hcol0 (by omega)]
    have hout : (if opts.NullEncoding = some v0 then Outcome.nil
        else
          match (deps.ParseDatumStringAs conv.visibleCols[i].Typ v0).2 with
          | some e =>
            Outcome.error (ImportError.parse file rowNum conv.visibleCols[i].Name
              (deps.SQLString conv.visibleCols[i].Typ) e)
          | none => Outcome.nil) = Outcome.nil := by
      by_cases hn0 : opts.NullEncoding = some v0
      · simp [hn0]
      · have : (deps.ParseDatumStringAs conv.visibleCols[i].Typ v0).2 = none := by
          by_contra hne
          exact hnf ⟨hn0, hne⟩
        simp [hn0, this]
    rw [hout]
    simp only
    apply ih _ (i + 1)
    · simp only [List.length_set]; omega
    · simpa [Nat.add_assoc, Nat.add_comm 1] using hcol
    · intro n v1 col1 hv hcol1
      apply hok (n + 1) v1 col1
      · simpa using hv
      · simpa [Nat.add_assoc, Nat.add_comm 1] using hcol1
    · exact hn
    · exact he

/-- The field loop changes neither the visible columns nor the size of the
datums buffer. -/
theorem convertFields_preserves (deps : Deps D T) (opts : CSVOptions) (file : String)
    (rowNum : Nat) (vs : List String) :
    ∀ (conv : rowConverter D T) (i : Nat),
      (convertFields deps opts file rowNum conv i vs).2.visibleCols = conv.visibleCols ∧
      (convertFields deps opts file rowNum conv i vs).2.datums.length = conv.datums.length := by
  have hf : ∀ (conv : rowConverter D T) (i : Nat) (v : String),
      (convertField deps opts file rowNum conv i v).2.visibleCols = conv.visibleCols ∧
      (convertField deps opts file rowNum conv i v).2.datums.length = conv.datums.length := by
    intro conv i v
    unfold convertField
    cases hcol : conv.visibleCols[i]? with
    | none => simp
    | some col =>
      by_cases hn : opts.NullEncoding = some v <;> by_cases hi : i < conv.datums.length <;>
        simp only [hn, hi, if_true, if_false]
      · simp
      · simp
      · cases (deps.ParseDatumStringAs col.Typ v).2 <;> simp
      · simp
  induction vs with
  | nil => intro conv i; simp [convertFields]
  | cons v vs ih =>
    intro conv i
    obtain ⟨h1, h2⟩ := hf conv i v
    unfold convertFields
    rcases hres : convertField deps opts file rowNum conv i v with ⟨out, conv1⟩
    rw [hres] at h1 h2
    simp only at h1 h2
    cases out with
    | nil =>
      simp only
      obtain ⟨h3, h4⟩ := ih conv1 (i + 1)
      exact ⟨h3.trans h1, h4.trans h2⟩
    | error e => exact ⟨h1, h2⟩
    | panic m => exact ⟨h1, h2⟩

theorem emitted_append (a b : List (ConvEvent D)) : emitted (a ++ b) = emitted a ++ emitted b := by
  induction a with
  | nil => rfl
  | cons e es ih => cases e <;> simp [emitted, ih]

theorem flushed_append_row (a : List (ConvEvent D)) (fileIndex : Int) (rowNum : Nat)
    (datums : List D) : flushed (a ++ [ConvEvent.row fileIndex rowNum datums]) = flushed a := by
  induction a with
  | nil => rfl
  | cons e es ih => cases e <;> simp [flushed, ih]

/-- The record loop changes neither the visible columns nor the size of the
datums buffer, and calls no `sendBatch`. -/
theorem convertRows_preserves (deps : Deps D T) (opts : CSVOptions) (batch : csvRecord)
    (records : List (List String)) :
    ∀ (conv : rowConverter D T) (tr : List (ConvEvent D)) (k : Nat),
      (convertRows deps opts batch conv tr k records).2.1.visibleCols = conv.visibleCols ∧
      (convertRows deps opts batch conv tr k records).2.1.datums.length = conv.datums.length ∧
      flushed (convertRows deps opts batch conv tr k records).2.2 = flushed tr := by
  induction records with
  | nil => intro conv tr k; simp [convertRows]
  | cons record records ih =>
    intro conv tr k
    obtain ⟨h1, h2⟩ := convertFields_preserves deps opts batch.file (batch.rowOffset + k)
      record conv 0
    rcases hres : convertFields deps opts batch.file (batch.rowOffset + k) conv 0 record
      with ⟨out, conv1⟩
    rw [hres] at h1 h2
    simp only at h1 h2
    rw [convertRows]
    simp only [hres]
    cases out with
    | nil =>
      simp only
      cases hrow : deps.row tr batch.fileIndex (batch.rowOffset + k) conv1.datums with
      | some e => exact ⟨h1, h2, flushed_append_row _ _ _ _⟩
      | none =>
        simp only
        obtain ⟨h3, h4, h5⟩ := ih conv1
          (tr ++ [ConvEvent.row batch.fileIndex (batch.rowOffset + k) conv1.datums]) (k + 1)
        exact ⟨h3.trans h1, h4.trans h2, h5.trans (flushed_append_row _ _ _ _)⟩
    | error e => exact ⟨h1, h2, rfl⟩
    | panic m => exact ⟨h1, h2, rfl⟩

/-- The batch loop changes neither the visible columns nor the size of the
datums buffer, and calls no `sendBatch`. -/
theorem convertBatches_preserves (deps : Deps D T) (opts : CSVOptions)
    (batches : List csvRecord) :
    ∀ (conv : rowConverter D T) (tr : List (ConvEvent D)),
      (convertBatches deps opts conv tr batches).2.1.visibleCols = conv.visibleCols ∧
      (convertBatches deps opts conv tr batches).2.1.datums.length = conv.datums.length ∧
      flushed (convertBatches deps opts conv tr batches).2.2 = flushed tr := by
  induction batches with
  | nil => intro conv tr; simp [convertBatches]
  | cons batch batches ih =>
    intro conv tr
    obtain ⟨h1, h2, h3⟩ := convertRows_preserves deps opts batch batch.r conv tr 0
    unfold convertBatches
    rcases hres : convertRows deps opts batch conv tr 0 batch.r with ⟨out, conv1, tr1⟩
    rw [hres] at h1 h2 h3
    simp only at h1 h2 h3
    cases out with
    | nil =>
      simp only
      obtain ⟨h4, h5, h6⟩ := ih conv1 tr1
      exact ⟨h4.trans h1, h5.trans h2, h6.trans h3⟩
    | error e => exact ⟨h1, h2, h3⟩
    | panic m => exact ⟨h1, h2, h3⟩

/-- A worker that has converted the batches `pre` without error goes on with
the next batches from the state it has reached. -/
theorem convertBatches_append (deps : Deps D T) (opts : CSVOptions) (pre : List csvRecord) :
    ∀ (conv conv1 : rowConverter D T) (tr tr1 : List (ConvEvent D)) (rest : List csvRecord),
      convertBatches deps opts conv tr pre = (Outcome.nil, conv1, tr1) →
      convertBatches deps opts conv tr (pre ++ rest) = convertBatches deps opts conv1 tr1 rest := by
  induction pre with
  | nil =>
    intro conv conv1 tr tr1 rest h
    simp only [convertBatches] at h
    injection h with _ h
    injection h with h1 h2
    subst h1 h2
    rfl
  | cons batch pre ih =>
    intro conv conv1 tr tr1 rest h
    rw [convertBatches] at h
    rw [List.cons_append, convertBatches]
    rcases hres : convertRows deps opts batch conv tr 0 batch.r with ⟨out, conv2, tr2⟩
    rw [hres] at h
    cases out with
    | nil =>
      simp only at h ⊢
      exact ih conv2 conv1 tr2 tr1 rest h
    | error e => simp at h
    | panic m => simp at h

/-- The record loop over records that all decode and whose rows are emitted
without error: it goes on with the next records, having handed one row per
record to the row-emission routine, in order, with the row numbers
`rowOffset + k`, `rowOffset + k + 1`, ... -/
theorem convertRows_before (deps : Deps D T) (opts : CSVOptions) (batch : csvRecord)
    (before : List (List String)) :
    ∀ (conv : rowConverter D T) (tr : List (ConvEvent D)) (k : Nat),
      conv.datums.length = conv.visibleCols.length →
      (∀ record ∈ before, record.length ≤ conv.visibleCols.length ∧
        ∀ (n : Nat) (v : String) (col : ColumnDescriptor T), record[n]? = some v →
          conv.visibleCols[n]? = some col → ¬ failsToDecode deps opts col.Typ v) →
      (∀ (t : List (ConvEvent D)) (ds : List D) (m : Nat), m < before.length →
        deps.row t batch.fileIndex (batch.rowOffset + k + m) ds = none) →
      ∃ (conv1 : rowConverter D T) (news : List (ConvEvent D)),
        (∀ rest, convertRows deps opts batch conv tr k (before ++ rest) =
          convertRows deps opts batch conv1 (tr ++ news) (k + before.length) rest) ∧
        conv1.visibleCols = conv.visibleCols ∧ conv1.datums.length = conv.datums.length ∧
        (emitted news).map (fun x => (x.1, x.2.1)) =
          (List.range before.length).map
            (fun m => (batch.fileIndex, batch.rowOffset + k + m)) ∧
        flushed (tr ++ news) = flushed tr := by
  induction before with
  | nil =>
    intro conv tr k _ _ _
    exact ⟨conv, [], by simp, rfl, rfl, by simp [emitted], by simp⟩
  | cons record before ih =>
    intro conv tr k hlen hrec hemit
    obtain ⟨hrl, hrok⟩ := hrec record (List.mem_cons_self _ _)
    have hcf := convertFields_decodedRow deps opts batch.file (batch.rowOffset + k) conv record
      hrl (by omega) hrok
    have hrow := hemit tr (decodedRow deps opts conv.visibleCols conv.datums record) 0
      (by simp)
    obtain ⟨conv1, news, h1, h2, h3, h4, h5⟩ := ih
      { conv with datums := decodedRow deps opts conv.visibleCols conv.datums record }
      (tr ++ [ConvEvent.row batch.fileIndex (batch.rowOffset + k)
        (decodedRow deps opts conv.visibleCols conv.datums record)]) (k + 1)
      (by
        have := (convertFields_preserves deps opts batch.file (batch.rowOffset + k) record
          conv 0).2
        rw [hcf] at this
        simp only at this ⊢
        omega)
      (fun r hr => hrec r (List.mem_cons_of_mem _ hr))
      (by
        intro t ds m hm
        have := hemit t ds (m + 1) (by simpa using hm)
        simpa [Nat.add_assoc, Nat.add_comm 1] using this)
    refine ⟨conv1,
      ConvEvent.row batch.fileIndex (batch.rowOffset + k)
        (decodedRow deps opts conv.visibleCols conv.datums record) :: news, ?_, h2, ?_, ?_, ?_⟩
    · intro rest
      simp only [List.cons_append]
      rw [convertRows, hcf]
      simp only [Nat.add_zero] at hrow
      simp only [hrow]
      rw [h1 rest]
      simp [Nat.add_assoc, Nat.add_comm 1]
    · have := (convertFields_preserves deps opts batch.file (batch.rowOffset + k) record
        conv 0).2
      rw [hcf] at this
      simp only at this h3
      omega
    · simp only [emitted, List.map_cons, List.length_cons, List.range_succ_eq_map,
        List.map_map, h4, Nat.add_zero, List.cons.injEq, true_and]
      apply List.map_congr_left
      intro m _
      simp [Nat.add_assoc, Nat.add_comm 1]
    · have : tr ++ ConvEvent.row batch.fileIndex (batch.rowOffset + k)
          (decodedRow deps opts conv.visibleCols conv.datums record) :: news =
          (tr ++ [ConvEvent.row batch.fileIndex (batch.rowOffset + k)
            (decodedRow deps opts conv.visibleCols conv.datums record)]) ++ news := by simp
      rw [this, h5, flushed_append_row]

theorem emitted_map_row (rows : List (Int × Nat × List D)) :
    emitted (rows.map (fun x => ConvEvent.row x.1 x.2.1 x.2.2)) = rows := by
  induction rows with
  | nil => rfl
  | cons x xs ih => simp [emitted, ih]

/-- The record loop on records of `e` fields each that all decode, with a
row-emission routine that never fails, from a datums buffer that agrees with
`base` beyond the first `e` slots: the rows handed over are `rowsFrom`, which
does not depend on what the buffer held before. -/
theorem convertRows_uniform (deps : Deps D T) (opts : CSVOptions) (batch : csvRecord)
    (cols : List (ColumnDescriptor T)) (base : List D) (e : Nat)
    (he1 : e ≤ cols.length) (he2 : e ≤ base.length)
    (hrow : ∀ t fileIndex rowNum ds, deps.row t fileIndex rowNum ds = none)
    (records : List (List String)) :
    ∀ (conv : rowConverter D T) (tr : List (ConvEvent D)) (k : Nat),
      conv.visibleCols = cols → conv.datums.length = base.length →
      conv.datums.drop e = base.drop e →
      (∀ record ∈ records, record.length = e ∧
        ∀ (n : Nat) (v : String) (col : ColumnDescriptor T), record[n]? = some v →
          cols[n]? = some col → ¬ failsToDecode deps opts col.Typ v) →
      ∃ conv1 : rowConverter D T,
        convertRows deps opts batch conv tr k records =
          (Outcome.nil, conv1,
            tr ++ (rowsFrom deps opts cols base batch k records).map
              (fun x => ConvEvent.row x.1 x.2.1 x.2.2)) ∧
        conv1.visibleCols = cols ∧ conv1.datums.length = base.length ∧
        conv1.datums.drop e = base.drop e ∧ conv1.sessionData = conv.sessionData := by
  induction records with
  | nil =>
    intro conv tr k h1 h2 h3 _
    exact ⟨conv, by simp [convertRows, rowsFrom], h1, h2, h3, rfl⟩
  | cons record records ih =>
    intro conv tr k h1 h2 h3 hrec
    obtain ⟨hrl, hrok⟩ := hrec record (List.mem_cons_self _ _)
    have hcf := convertFields_decodedRow deps opts batch.file (batch.rowOffset + k) conv record
      (by rw [h1]; omega) (by omega) (by rw [h1]; exact hrok)
    have hd : decodedRow deps opts conv.visibleCols conv.datums record =
        decodedRow deps opts cols base record := by
      simp only [decodedRow, h1, hrl, h3]
    have hzl : (List.zipWith (fun col v => decodeField deps opts col.Typ v) cols record).length
        = e := by
      rw [List.length_zipWith, hrl]
      exact Nat.min_eq_right he1
    obtain ⟨conv1, h4, h5, h6, h7, h8⟩ := ih
      { conv with datums := decodedRow deps opts cols base record }
      (tr ++ [ConvEvent.row batch.fileIndex (batch.rowOffset + k)
        (decodedRow deps opts cols base record)]) (k + 1) h1
      (by simp only [decodedRow, List.length_append, hzl, List.length_drop, hrl]; omega)
      (by simp only [decodedRow, hrl]; exact List.drop_left' hzl)
      (fun r hr => hrec r (List.mem_cons_of_mem _ hr))
    refine ⟨conv1, ?_, h5, h6, h7, h8⟩
    rw [convertRows, hcf]
    simp only [hrow, hd]
    rw [h4]
    simp [rowsFrom]

/-- The batch loop under the conditions of `convertRows_uniform`: the
rows handed over are those of the batches, batch after batch. -/
theorem convertBatches_uniform (deps : Deps D T) (opts : CSVOptions)
    (cols : List (ColumnDescriptor T)) (base : List D) (e : Nat)
    (he1 : e ≤ cols.length) (he2 : e ≤ base.length)
    (hrow : ∀ t fileIndex rowNum ds, deps.row t fileIndex rowNum ds = none)
    (batches : List csvRecord) :
    ∀ (conv : rowConverter D T) (tr : List (ConvEvent D)),
      conv.visibleCols = cols → conv.datums.length = base.length →
      conv.datums.drop e = base.drop e →
      (∀ b ∈ batches, ∀ record ∈ b.r, record.length = e ∧
        ∀ (n : Nat) (v : String) (col : ColumnDescriptor T), record[n]? = some v →
          cols[n]? = some col → ¬ failsToDecode deps opts col.Typ v) →
      ∃ conv1 : rowConverter D T,
        convertBatches deps opts conv tr batches =
          (Outcome.nil, conv1,
            tr ++ (batches.flatMap (rowsOf deps opts cols base)).map
              (fun x => ConvEvent.row x.1 x.2.1 x.2.2)) := by
  induction batches with
  | nil =>
    intro conv tr _ _ _ _
    exact ⟨conv, by simp [convertBatches]⟩
  | cons b batches ih =>
    intro conv tr h1 h2 h3 hb
    obtain ⟨conv1, h4, h5, h6, h7, -⟩ := convertRows_uniform deps opts b cols base e he1 he2
      hrow b.r conv tr 0 h1 h2 h3 (hb b (List.mem_cons_self _ _))
    obtain ⟨conv2, h8⟩ := ih conv1
      (tr ++ (rowsFrom deps opts cols base b 0 b.r).map
        (fun x => ConvEvent.row x.1 x.2.1 x.2.2)) h5 h6 h7
      (fun b1 hb1 => hb b1 (List.mem_cons_of_mem _ hb1))
    refine ⟨conv2, ?_⟩
    rw [convertBatches, h4]
    simp only
    rw [h8]
    simp [rowsOf, List.flatMap_cons]

/-- One worker under the conditions of `convertRows_uniform`: the tuples it
hands to the row-emission routine are the rows of its batches, batch after
batch. -/
theorem convertRecord_uniform (deps : Deps D T) (opts : CSVOptions) (conv0 : rowConverter D T)
    (e : Nat) (hnew : deps.newRowConverter = Except.ok conv0) (hsd : conv0.sessionData = true)
    (he1 : e ≤ conv0.visibleCols.length) (he2 : e ≤ conv0.datums.length)
    (hrow : ∀ t fileIndex rowNum ds, deps.row t fileIndex rowNum ds = none)
    (batches : List csvRecord)
    (hb : ∀ b ∈ batches, ∀ record ∈ b.r, record.length = e ∧
      ∀ (n : Nat) (v : String) (col : ColumnDescriptor T), record[n]? = some v →
        conv0.visibleCols[n]? = some col → ¬ failsToDecode deps opts col.Typ v) :
    emitted (convertRecord deps opts batches).2 =
      batches.flatMap (rowsOf deps opts conv0.visibleCols conv0.datums) := by
  obtain ⟨conv1, h⟩ := convertBatches_uniform deps opts conv0.visibleCols conv0.datums e he1 he2
    hrow batches conv0 [] rfl rfl rfl hb
  unfold convertRecord
  rw [hnew]
  simp only [hsd, h]
  cases deps.sendBatch
      ([] ++ (batches.flatMap (rowsOf deps opts conv0.visibleCols conv0.datums)).map
        (fun x => ConvEvent.row x.1 x.2.1 x.2.2)) <;>
    simp [emitted_append, emitted_map_row, emitted]

/-- Giving an extra list to one element of a duplicate-free list permutes
the concatenation. -/
theorem flatMap_insert_perm {α : Type} (a : Nat) (x : List α) (g : Nat → List α) :
    ∀ L : List Nat, L.Nodup → a ∈ L →
      (L.flatMap (fun w => (if a = w then x else []) ++ g w)).Perm (x ++ L.flatMap g) := by
  intro L
  induction L with
  | nil => intro _ h; simp at h
  | cons w L ih =>
    intro hnd hmem
    have hnd' := List.nodup_cons.1 hnd
    simp only [List.flatMap_cons]
    by_cases haw : a = w
    · subst haw
      have hcongr : L.flatMap (fun w => (if a = w then x else []) ++ g w) = L.flatMap g := by
        apply List.flatMap_congr
        intro y hy
        have : a ≠ y := fun h => hnd'.1 (h ▸ hy)
        simp [this]
      rw [hcongr]
      simp
    · have hmem' : a ∈ L := by
        rcases List.mem_cons.1 hmem with h | h
        · exact absurd h haw
        · exact h
      simp only [haw, if_false, List.nil_append]
      exact (List.Perm.append_left (g w) (ih hnd'.2 hmem')).trans
        (List.perm_append_comm_assoc (g w) x (L.flatMap g))

/-- The rows of the batches received by the workers of a pool, worker after
worker, are a permutation of the rows of all batches. -/
theorem received_perm {α : Type} (f : csvRecord → List α) (P : Nat) (assign : Nat → Nat)
    (batches : List csvRecord) :
    ∀ n0 : Nat, (∀ n, n < batches.length → assign (n0 + n) < P) →
      ((List.range P).flatMap (fun w => (received assign w n0 batches).flatMap f)).Perm
        (batches.flatMap f) := by
  induction batches with
  | nil =>
    intro n0 _
    simp [received]
  | cons b batches ih =>
    intro n0 h
    have h0 : assign n0 < P := by simpa using h 0 (by simp)
    have hrest := ih (n0 + 1) (by
      intro n hn
      have := h (n + 1) (by simpa using hn)
      simpa [Nat.add_assoc, Nat.add_comm 1] using this)
    have hcongr : (List.range P).flatMap (fun w => (received assign w n0 (b :: batches)).flatMap f)
        = (List.range P).flatMap (fun w => (if assign n0 = w then f b else []) ++
            (received assign w (n0 + 1) batches).flatMap f) := by
      apply List.flatMap_congr
      intro w _
      by_cases hw : assign n0 = w <;> simp [received, hw]
    rw [hcongr, List.flatMap_cons]
    exact (flatMap_insert_perm (assign n0) (f b) _ (List.range P) (List.nodup_range P)
      (List.mem_range.2 h0)).trans (List.Perm.append_left (f b) hrest)

theorem received_subset (assign : Nat → Nat) (w : Nat) (batches : List csvRecord) :
    ∀ (n0 : Nat) (b : csvRecord), b ∈ received assign w n0 batches → b ∈ batches := by
  induction batches with
  | nil => intro n0 b h; simp [received] at h
  | cons b0 batches ih =>
    intro n0 b h
    unfold received at h
    by_cases hw : assign n0 = w
    · simp only [hw, if_true, List.mem_cons] at h
      rcases h with h | h
      · exact h ▸ List.mem_cons_self _ _
      · exact List.mem_cons_of_mem _ (ih (n0 + 1) b h)
    · simp only [hw, if_false] at h
      exact List.mem_cons_of_mem _ (ih (n0 + 1) b h)

/-! ### No index out of range -/

/-- The field loop on fields that all have a visible column and a slot does
not panic. -/
theorem convertFields_in_range (deps : Deps D T) (opts : CSVOptions) (file : String)
    (rowNum : Nat) (vs : List String) :
    ∀ (conv : rowConverter D T) (i : Nat),
      i + vs.length ≤ conv.visibleCols.length → i + vs.length ≤ conv.datums.length →
      ∀ msg, (convertFields deps opts file rowNum conv i vs).1 ≠ Outcome.panic msg := by
  induction vs with
  | nil => intro conv i _ _ msg; simp [convertFields]
  | cons v vs ih =>
    intro conv i hc hd msg
    simp only [List.length_cons] at hc hd
    have hic : i < conv.visibleCols.length := by omega
    have hcol : conv.visibleCols[i]? = some conv.visibleCols[i] := List.getElem?_eq_getElem hic
    unfold convertFields
    rw [convertField_eq deps opts file rowNum conv i v _ hcol (by omega)]
    by_cases hn : opts.NullEncoding = some v
    · simp only [hn, if_true]
      exact ih _ (i + 1) (by simp; omega) (by simp; omega) msg
    · simp only [hn, if_false]
      cases hp : (deps.ParseDatumStringAs conv.visibleCols[i].Typ v).2 with
      | none =>
        simp only
        exact ih _ (i + 1) (by simp; omega) (by simp; omega) msg
      | some e => simp

theorem convertRows_in_range (deps : Deps D T) (opts : CSVOptions) (batch : csvRecord)
    (records : List (List String)) :
    ∀ (conv : rowConverter D T) (tr : List (ConvEvent D)) (k : Nat),
      (∀ record ∈ records, record.length ≤ conv.visibleCols.length ∧
        record.length ≤ conv.datums.length) →
      ∀ msg, (convertRows deps opts batch conv tr k records).1 ≠ Outcome.panic msg := by
  induction records with
  | nil => intro conv tr k _ msg; simp [convertRows]
  | cons record records ih =>
    intro conv tr k h msg
    obtain ⟨h1, h2⟩ := h record (List.mem_cons_self _ _)
    have hnp := convertFields_in_range deps opts batch.file (batch.rowOffset + k) record conv 0
      (by omega) (by omega)
    obtain ⟨hp1, hp2⟩ := convertFields_preserves deps opts batch.file (batch.rowOffset + k)
      record conv 0
    rcases hres : convertFields deps opts batch.file (batch.rowOffset + k) conv 0 record
      with ⟨out, conv1⟩
    rw [hres] at hnp hp1 hp2
    simp only at hnp hp1 hp2
    rw [convertRows]
    simp only [hres]
    cases out with
    | nil =>
      simp only
      cases hrow : deps.row tr batch.fileIndex (batch.rowOffset + k) conv1.datums with
      | some e => simp
      | none =>
        simp only
        apply ih
        intro r hr
        rw [hp1, hp2]
        exact h r (List.mem_cons_of_mem _ hr)
    | error e => simp
    | panic m => exact absurd rfl (hnp m)

theorem convertBatches_in_range (deps : Deps D T) (opts : CSVOptions)
    (batches : List csvRecord) :
    ∀ (conv : rowConverter D T) (tr : List (ConvEvent D)),
      (∀ b ∈ batches, ∀ record ∈ b.r, record.length ≤ conv.visibleCols.length ∧
        record.length ≤ conv.datums.length) →
      ∀ msg, (convertBatches deps opts conv tr batches).1 ≠ Outcome.panic msg := by
  induction batches with
  | nil => intro conv tr _ msg; simp [convertBatches]
  | cons b batches ih =>
    intro conv tr h msg
    have hnp := convertRows_in_range deps opts b b.r conv tr 0 (h b (List.mem_cons_self _ _))
    obtain ⟨hp1, hp2, -⟩ := convertRows_preserves deps opts b b.r conv tr 0
    rcases hres : convertRows deps opts b conv tr 0 b.r with ⟨out, conv1, tr1⟩
    rw [hres] at hnp hp1 hp2
    simp only at hnp hp1 hp2
    rw [convertBatches]
    simp only [hres]
    cases out with
    | nil =>
      simp only
      apply ih
      intro b1 hb1
      rw [hp1, hp2]
      exact h b1 (List.mem_cons_of_mem _ hb1)
    | error e => simp
    | panic m => exact absurd rfl (hnp m)

/-- On batches whose records have `e` fields each, with `e` at most the
number of visible columns and a datums buffer of that size, `convertRecord`
indexes `visibleCols` and `datums` within range: it does not panic. -/
theorem convertRecord_in_range (deps : Deps D T) (opts : CSVOptions) (conv0 : rowConverter D T)
    (e : Nat) (batches : List csvRecord)
    (hnew : deps.newRowConverter = Except.ok conv0) (hsd : conv0.sessionData = true)
    (hlen : conv0.datums.length = conv0.visibleCols.length)
    (he : e ≤ conv0.visibleCols.length)
    (hb : ∀ b ∈ batches, ∀ record ∈ b.r, record.length = e) :
    ∀ msg, (convertRecord deps opts batches).1 ≠ Outcome.panic msg := by
  intro msg
  have hnp := convertBatches_in_range deps opts batches conv0 [] (by
    intro b hb1 record hr
    rw [hb b hb1 record hr, hlen]
    exact ⟨he, he⟩)
  unfold convertRecord
  rw [hnew]
  simp only [hsd]
  rcases hres : convertBatches deps opts conv0 [] batches with ⟨out, conv1, tr1⟩
  rw [hres] at hnp
  simp only at hnp
  cases out with
  | nil =>
    simp only
    cases deps.sendBatch tr1 <;> simp
  | error e => simp
  | panic m => exact absurd rfl (hnp m)

/-! ### What the field loop stores -/

/-- The body of the field loop writes no other slot than the one of its
field. -/
theorem convertField_other_slots (deps : Deps D T) (opts : CSVOptions) (file : String)
    (rowNum : Nat) (conv : rowConverter D T) (i : Nat) (v : String) (m : Nat) (hm : m ≠ i) :
    (convertField deps opts file rowNum conv i v).2.datums[m]? = conv.datums[m]? := by
  unfold convertField
  cases hcol : conv.visibleCols[i]? with
  | none => rfl
  | some col =>
    by_cases hn : opts.NullEncoding = some v <;> by_cases hi : i < conv.datums.length <;>
      simp only [hn, hi, if_true, if_false]
    · exact List.getElem?_set_ne (Ne.symm hm)
    · cases (deps.ParseDatumStringAs col.Typ v).2 <;> exact List.getElem?_set_ne (Ne.symm hm)

/-- The field loop from index `i` on leaves the slots before `i` as they
are, however it ends. -/
theorem convertFields_earlier_slots (deps : Deps D T) (opts : CSVOptions) (file : String)
    (rowNum : Nat) (vs : List String) :
    ∀ (conv : rowConverter D T) (i m : Nat), m < i →
      (convertFields deps opts file rowNum conv i vs).2.datums[m]? = conv.datums[m]? := by
  induction vs with
  | nil => intro conv i m _; simp [convertFields]
  | cons v vs ih =>
    intro conv i m hm
    have h1 := convertField_other_slots deps opts file rowNum conv i v m (by omega)
    unfold convertFields
    rcases hres : convertField deps opts file rowNum conv i v with ⟨out, conv1⟩
    rw [hres] at h1
    simp only at h1
    cases out with
    | nil =>
      simp only
      rw [ih conv1 (i + 1) m (by omega), h1]
    | error e => exact h1
    | panic msg => exact h1

/-- The field loop stores, for a field that it reaches (the fields before it
decode) and that has a visible column and a slot, the datum `decodeField` in
the slot of the field, and the fields after it do not change that slot. -/
theorem convertFields_store (deps : Deps D T) (opts : CSVOptions) (file : String) (rowNum : Nat)
    (pre : List String) (v : String) (post : List String) (col : ColumnDescriptor T) :
    ∀ (conv : rowConverter D T) (i : Nat),
      i + pre.length < conv.datums.length →
      conv.visibleCols[i + pre.length]? = some col →
      (∀ (n : Nat) (v1 : String) (col1 : ColumnDescriptor T), pre[n]? = some v1 →
        conv.visibleCols[i + n]? = some col1 → ¬ failsToDecode deps opts col1.Typ v1) →
      (convertFields deps opts file rowNum conv i (pre ++ v :: post)).2.datums[i + pre.length]? =
        some (decodeField deps opts col.Typ v) := by
  induction pre with
  | nil =>
    intro conv i hd hcol _
    simp only [List.length_nil, Nat.add_zero] at hd hcol ⊢
    simp only [List.nil_append]
    have hstored : (conv.datums.set i (decodeField deps opts col.Typ v))[i]? =
        some (decodeField deps opts col.Typ v) := by
      rw [List.getElem?_set]
      simp [hd]
    unfold convertFields
    rw [convertField_eq deps opts file rowNum conv i v col hcol hd]
    by_cases hn : opts.NullEncoding = some v
    · simp only [hn, if_true]
      rw [convertFields_earlier_slots deps opts file rowNum post _ (i + 1) i (by omega)]
      simpa [hn] using hstored
    · simp only [hn, if_false]
      cases hp : (deps.ParseDatumStringAs col.Typ v).2 with
      | none =>
        simp only
        rw [convertFields_earlier_slots deps opts file rowNum post _ (i + 1) i (by omega)]
        exact hstored
      | some e => exact hstored
  | cons v0 pre ih =>
    intro conv i hd hcol hok
    simp only [List.length_cons] at hd hcol ⊢
    have hlt : i + (pre.length + 1) < conv.visibleCols.length := by
      by_contra hge
      rw [List.getElem?_eq_none (by omega)] at hcol
      exact Option.noConfusion hcol
    have hic : i < conv.visibleCols.length := by omega
    have hcol0 : conv.visibleCols[i]? = some conv.visibleCols[i] := List.getElem?_eq_getElem hic
    have hnf := hok 0 v0 conv.visibleCols[i] (by simp) (by simp)
    simp only [List.cons_append]
    unfold convertFields
    rw [convertField_eq deps opts file rowNum conv i v0 _ hcol0 (by omega)]
    have hout : (if opts.NullEncoding = some v0 then Outcome.nil
        else
          match (deps.ParseDatumStringAs conv.visibleCols[i].Typ v0).2 with
          | some e =>
            Outcome.error (ImportError.parse file rowNum conv.visibleCols[i].Name
              (deps.SQLString conv.visibleCols[i].Typ) e)
          | none => Outcome.nil) = Outcome.nil := by
      by_cases hn0 : opts.NullEncoding = some v0
      · simp [hn0]
      · have : (deps.ParseDatumStringAs conv.visibleCols[i].Typ v0).2 = none := by
          by_contra hne
          exact hnf ⟨hn0, hne⟩
        simp [hn0, this]
    rw [hout]
    simp only
    have e1 : i + (pre.length + 1) = (i + 1) + pre.length := by omega
    rw [e1]
    apply ih _ (i + 1)
    · simp only [List.length_set]; omega
    · simpa [Nat.add_assoc, Nat.add_comm 1] using hcol
    · intro n v1 col1 hv hcol1
      apply hok (n + 1) v1 col1
      · simpa using hv
      · simpa [Nat.add_assoc, Nat.add_comm 1] using hcol1

/-- A field step that ends normally had a visible column and a slot, and
stored `decodeField` in the slot. -/
theorem convertField_nil (deps : Deps D T) (opts : CSVOptions) (file : String) (rowNum : Nat)
    (conv conv1 : rowConverter D T) (i : Nat) (v : String)
    (h : convertField deps opts file rowNum conv i v = (Outcome.nil, conv1)) :
    ∃ col, conv.visibleCols[i]? = some col ∧ i < conv.datums.length ∧
      conv1 = { conv with datums := conv.datums.set i (decodeField deps opts col.Typ v) } := by
  cases hcol : conv.visibleCols[i]? with
  | none => simp [convertField, hcol] at h
  | some col =>
    by_cases hi : i < conv.datums.length
    · rw [convertField_eq deps opts file rowNum conv i v col hcol hi] at h
      injection h with _ h2
      exact ⟨col, rfl, hi, h2.symm⟩
    · by_cases hn : opts.NullEncoding = some v <;> simp [convertField, hcol, hi, hn] at h

/-- When the field loop ends normally, every field of the record had a
visible column and its slot holds `decodeField` of the field. -/
theorem convertFields_nil_slots (deps : Deps D T) (opts : CSVOptions) (file : String)
    (rowNum : Nat) (vs : List String) :
    ∀ (conv conv1 : rowConverter D T) (i : Nat),
      convertFields deps opts file rowNum conv i vs = (Outcome.nil, conv1) →
      ∀ (n : Nat) (v : String), vs[n]? = some v →
        ∃ col, conv.visibleCols[i + n]? = some col ∧
          conv1.datums[i + n]? = some (decodeField deps opts col.Typ v) := by
  induction vs with
  | nil => intro conv conv1 i _ n v hv; simp at hv
  | cons v0 vs ih =>
    intro conv conv1 i h n v hv
    rw [convertFields] at h
    rcases hres : convertField deps opts file rowNum conv i v0 with ⟨out, conv2⟩
    rw [hres] at h
    cases out with
    | nil =>
      simp only at h
      obtain ⟨col, hcol, hi, hc2⟩ := convertField_nil deps opts file rowNum conv conv2 i v0 hres
      cases n with
      | zero =>
        simp only [List.getElem?_cons_zero, Option.some.injEq] at hv
        subst hv
        refine ⟨col, by simpa using hcol, ?_⟩
        have hkeep := convertFields_earlier_slots deps opts file rowNum vs conv2 (i + 1) i
          (by omega)
        rw [h] at hkeep
        simp only [Nat.add_zero]
        rw [hkeep, hc2]
        simp only
        rw [List.getElem?_set]
        simp [hi]
      | succ n =>
        simp only [List.getElem?_cons_succ] at hv
        obtain ⟨col1, h1, h2⟩ := ih conv2 conv1 (i + 1) h n v hv
        rw [hc2] at h1
        simp only at h1
        exact ⟨col1, by simpa [Nat.add_assoc, Nat.add_comm 1] using h1,
          by simpa [Nat.add_assoc, Nat.add_comm 1] using h2⟩
    | error e => simp at h
    | panic msg => simp at h

/-- The slot of a field in `decodedRow`. -/
theorem decodedRow_slot (deps : Deps D T) (opts : CSVOptions) (cols : List (ColumnDescriptor T))
    (base : List D) (record : List String) (n : Nat) (v : String) (col : ColumnDescriptor T)
    (hv : record[n]? = some v) (hcol : cols[n]? = some col) :
    (decodedRow deps opts cols base record)[n]? = some (decodeField deps opts col.Typ v) := by
  have h1 : n < record.length := by
    by_contra hge
    rw [List.getElem?_eq_none (by omega)] at hv
    exact Option.noConfusion hv
  have h2 : n < cols.length := by
    by_contra hge
    rw [List.getElem?_eq_none (by omega)] at hcol
    exact Option.noConfusion hcol
  unfold decodedRow
  rw [List.getElem?_append_left (by rw [List.length_zipWith]; exact lt_min h2 h1),
    List.getElem?_zipWith, hv, hcol]

/-! ### Every row handed over is decoded field by field -/

/-- The record loop hands over only rows that are decoded field by field,
however it ends. `done` are the records of the batch before index `k`. -/
theorem convertRows_rowDecoded (deps : Deps D T) (opts : CSVOptions)
    (cols : List (ColumnDescriptor T)) (batches : List csvRecord) (batch : csvRecord)
    (hmem : batch ∈ batches) (records : List (List String)) :
    ∀ (done : List (List String)) (conv : rowConverter D T) (tr : List (ConvEvent D)) (k : Nat),
      batch.r = done ++ records → k = done.length → conv.visibleCols = cols →
      (∀ ev ∈ tr, rowDecoded deps opts cols batches ev) →
      ∀ ev ∈ (convertRows deps opts batch conv tr k records).2.2,
        rowDecoded deps opts cols batches ev := by
  induction records with
  | nil => intro done conv tr k _ _ _ htr ev hev; exact htr ev (by simpa [convertRows] using hev)
  | cons record records ih =>
    intro done conv tr k hr hk hcols htr ev hev
    obtain ⟨hp1, -⟩ := convertFields_preserves deps opts batch.file (batch.rowOffset + k)
      record conv 0
    rw [convertRows] at hev
    rcases hres : convertFields deps opts batch.file (batch.rowOffset + k) conv 0 record
      with ⟨out, conv1⟩
    rw [hres] at hp1
    simp only [hres] at hev
    simp only at hp1
    cases out with
    | nil =>
      simp only at hev
      have hnew : ∀ ev ∈ tr ++ [ConvEvent.row batch.fileIndex (batch.rowOffset + k)
          conv1.datums], rowDecoded deps opts cols batches ev := by
        intro ev1 hev1
        rcases List.mem_append.1 hev1 with h | h
        · exact htr ev1 h
        · simp only [List.mem_singleton] at h
          subst h
          refine ⟨batch, hmem, k, record, ?_, rfl, rfl, ?_⟩
          · rw [hr, hk, List.getElem?_append_right (le_refl _)]
            simp
          · intro n v hv
            obtain ⟨col, h1, h2⟩ := convertFields_nil_slots deps opts batch.file
              (batch.rowOffset + k) record conv conv1 0 hres n v hv
            rw [hcols] at h1
            exact ⟨col, by simpa using h1, by simpa [decodeField] using h2⟩
      cases hrow : deps.row tr batch.fileIndex (batch.rowOffset + k) conv1.datums with
      | some e =>
        simp only [hrow] at hev
        exact hnew ev hev
      | none =>
        simp only [hrow] at hev
        exact ih (done ++ [record]) conv1 _ (k + 1) (by simp [hr]) (by simp [hk])
          (hp1.trans hcols) hnew ev hev
    | error e => exact htr ev hev
    | panic msg => exact htr ev hev

/-- The batch loop hands over only rows that are decoded field by field,
however it ends. -/
theorem convertBatches_rowDecoded (deps : Deps D T) (opts : CSVOptions)
    (cols : List (ColumnDescriptor T)) (batches : List csvRecord) (rem : List csvRecord) :
    ∀ (conv : rowConverter D T) (tr : List (ConvEvent D)),
      (∀ b ∈ rem, b ∈ batches) → conv.visibleCols = cols →
      (∀ ev ∈ tr, rowDecoded deps opts cols batches ev) →
      ∀ ev ∈ (convertBatches deps opts conv tr rem).2.2,
        rowDecoded deps opts cols batches ev := by
  induction rem with
  | nil => intro conv tr _ _ htr ev hev; exact htr ev (by simpa [convertBatches] using hev)
  | cons b rem ih =>
    intro conv tr hsub hcols htr ev hev
    have hrows := convertRows_rowDecoded deps opts cols batches b
      (hsub b (List.mem_cons_self _ _)) b.r [] conv tr 0 rfl rfl hcols htr
    obtain ⟨hp1, -, -⟩ := convertRows_preserves deps opts b b.r conv tr 0
    rw [convertBatches] at hev
    rcases hres : convertRows deps opts b conv tr 0 b.r with ⟨out, conv1, tr1⟩
    rw [hres] at hrows hp1
    simp only [hres] at hev
    simp only at hrows hp1
    cases out with
    | nil =>
      simp only at hev
      exact ih conv1 tr1 (fun b1 h => hsub b1 (List.mem_cons_of_mem _ h)) (hp1.trans hcols)
        hrows ev hev
    | error e => exact hrows ev hev
    | panic msg => exact hrows ev hev

/-- Every event of a worker is the final `sendBatch` or a row decoded field
by field, however the worker ends. -/
theorem convertRecord_rowDecoded (deps : Deps D T) (opts : CSVOptions) (conv0 : rowConverter D T)
    (hnew : deps.newRowConverter = Except.ok conv0) (batches : List csvRecord) :
    ∀ ev ∈ (convertRecord deps opts batches).2,
      rowDecoded deps opts conv0.visibleCols batches ev := by
  intro ev hev
  have hb := convertBatches_rowDecoded deps opts conv0.visibleCols batches batches conv0 []
    (fun b h => h) rfl (by simp)
  unfold convertRecord at hev
  rw [hnew] at hev
  simp only at hev
  by_cases hsd : conv0.sessionData = false
  · simp [hsd] at hev
  · simp only [hsd, if_false] at hev
    rcases hres : convertBatches deps opts conv0 [] batches with ⟨out, conv1, tr1⟩
    rw [hres] at hb
    simp only [hres] at hev
    simp only at hb
    cases out with
    | nil =>
      simp only at hev
      have hall : ev ∈ tr1 ++ [ConvEvent.sendBatch] := by
        cases hs : deps.sendBatch tr1 <;> simpa [hs] using hev
      rcases List.mem_append.1 hall with h | h
      · exact hb ev h
      · simp only [List.mem_singleton] at h
        subst h
        trivial
    | error e => exact hb ev hev
    | panic msg => exact hb ev hev

/-! ### The decoder is not consulted on the null sentinel -/

theorem convertField_congr (deps : Deps D T) (opts : CSVOptions)
    (parse : T → String → D × Option String)
    (hagree : ∀ t v, opts.NullEncoding ≠ some v → parse t v = deps.ParseDatumStringAs t v)
    (file : String) (rowNum : Nat) (conv : rowConverter D T) (i : Nat) (v : String) :
    convertField { deps with ParseDatumStringAs := parse } opts file rowNum conv i v =
      convertField deps opts file rowNum conv i v := by
  unfold convertField
  cases hcol : conv.visibleCols[i]? with
  | none => rfl
  | some col =>
    by_cases hn : opts.NullEncoding = some v
    · simp [hn]
    · simp only [hn, if_false]
      rw [hagree col.Typ v hn]

theorem convertFields_congr (deps : Deps D T) (opts : CSVOptions)
    (parse : T → String → D × Option String)
    (hagree : ∀ t v, opts.NullEncoding ≠ some v → parse t v = deps.ParseDatumStringAs t v)
    (file : String) (rowNum : Nat) (vs : List String) :
    ∀ (conv : rowConverter D T) (i : Nat),
      convertFields { deps with ParseDatumStringAs := parse } opts file rowNum conv i vs =
        convertFields deps opts file rowNum conv i vs := by
  induction vs with
  | nil => intro conv i; rfl
  | cons v vs ih =>
    intro conv i
    rw [convertFields, convertFields, convertField_congr deps opts parse hagree]
    rcases convertField deps opts file rowNum conv i v with ⟨out, conv1⟩
    cases out with
    | nil => exact ih conv1 (i + 1)
    | error e => rfl
    | panic msg => rfl

theorem convertRows_congr (deps : Deps D T) (opts : CSVOptions)
    (parse : T → String → D × Option String)
    (hagree : ∀ t v, opts.NullEncoding ≠ some v → parse t v = deps.ParseDatumStringAs t v)
    (batch : csvRecord) (records : List (List String)) :
    ∀ (conv : rowConverter D T) (tr : List (ConvEvent D)) (k : Nat),
      convertRows { deps with ParseDatumStringAs := parse } opts batch conv tr k records =
        convertRows deps opts batch conv tr k records := by
  induction records with
  | nil => intro conv tr k; rfl
  | cons record records ih =>
    intro conv tr k
    rw [convertRows, convertRows, convertFields_congr deps opts parse hagree]
    rcases convertFields deps opts batch.file (batch.rowOffset + k) conv 0 record
      with ⟨out, conv1⟩
    cases out with
    | nil =>
      simp only
      cases deps.row tr batch.fileIndex (batch.rowOffset + k) conv1.datums with
      | some e => rfl
      | none => exact ih conv1 _ (k + 1)
    | error e => rfl
    | panic msg => rfl

theorem convertBatches_congr (deps : Deps D T) (opts : CSVOptions)
    (parse : T → String → D × Option String)
    (hagree : ∀ t v, opts.NullEncoding ≠ some v → parse t v = deps.ParseDatumStringAs t v)
    (batches : List csvRecord) :
    ∀ (conv : rowConverter D T) (tr : List (ConvEvent D)),
      convertBatches { deps with ParseDatumStringAs := parse } opts conv tr batches =
        convertBatches deps opts conv tr batches := by
  induction batches with
  | nil => intro conv tr; rfl
  | cons b batches ih =>
    intro conv tr
    rw [convertBatches, convertBatches, convertRows_congr deps opts parse hagree]
    rcases convertRows deps opts b conv tr 0 b.r with ⟨out, conv1, tr1⟩
    cases out with
    | nil => exact ih conv1 tr1
    | error e => rfl
    | panic msg => rfl

/-- A worker gives the same result with any decoder that agrees with the
given one on the strings other than the null sentinel. -/
theorem convertRecord_congr (deps : Deps D T) (opts : CSVOptions)
    (parse : T → String → D × Option String)
    (hagree : ∀ t v, opts.NullEncoding ≠ some v → parse t v = deps.ParseDatumStringAs t v)
    (batches : List csvRecord) :
    convertRecord { deps with ParseDatumStringAs := parse } opts batches =
      convertRecord deps opts batches := by
  unfold convertRecord
  simp only [convertBatches_congr deps opts parse hagree]

end converter

end importccl
namespace importccl

/-! ## Converter: null sentinel and decode failures -/

section converter

variable {D T : Type}

/-- C5: in `convertRecord`, for every field `v` of a record and the visible
column of its index.

* The field loop: when the loop reaches `v` (the fields `pre` before it
  decode), after the loop over the record `pre ++ v :: post` the slot of `v`
  holds the null datum if a null sentinel is configured and `v` equals it,
  whatever the type of the column, and in every other case exactly what the
  decoder returns for `v` at the type of the column, also when the decoder
  reports an error.
* Every row that `convertRecord` hands to the row-emission routine, for any
  batches and however the worker ends, is the row of a record of these
  batches in which every field is stored in this way (`rowDecoded`).
* On records of `e` fields that all decode, with a row-emission routine that
  never fails, `convertRecord` hands over exactly one row per record, in
  order, and the slot of each field in that row holds the null datum for the
  sentinel and the decoder's result otherwise.
* The decoder is not consulted on the sentinel: `convertRecord` gives the
  same result and the same rows with any decoder that agrees with the given
  one on the strings other than the sentinel. -/
theorem convertRecord_null_sentinel (deps : Deps D T) (opts : CSVOptions)
    (conv0 : rowConverter D T)
    (hnew : deps.newRowConverter = Except.ok conv0) (hsd : conv0.sessionData = true)
    (hlen : conv0.datums.length = conv0.visibleCols.length) :
    (∀ (file : String) (rowNum : Nat) (conv : rowConverter D T) (pre : List String)
        (v : String) (post : List String) (col : ColumnDescriptor T),
      conv.visibleCols[pre.length]? = some col → pre.length < conv.datums.length →
      (∀ (n : Nat) (v1 : String) (col1 : ColumnDescriptor T), pre[n]? = some v1 →
        conv.visibleCols[n]? = some col1 → ¬ failsToDecode deps opts col1.Typ v1) →
      (opts.NullEncoding = some v →
        (convertFields deps opts file rowNum conv 0 (pre ++ v :: post)).2.datums[pre.length]? =
          some deps.DNull) ∧
      (opts.NullEncoding ≠ some v →
        (convertFields deps opts file rowNum conv 0 (pre ++ v :: post)).2.datums[pre.length]? =
          some (deps.ParseDatumStringAs col.Typ v).1)) ∧
    (∀ (batches : List csvRecord), ∀ ev ∈ (convertRecord deps opts batches).2,
      rowDecoded deps opts conv0.visibleCols batches ev) ∧
    (∀ (e : Nat) (batches : List csvRecord), e ≤ conv0.visibleCols.length →
      (∀ b ∈ batches, ∀ record ∈ b.r, record.length = e ∧
        ∀ (n : Nat) (v : String) (col : ColumnDescriptor T), record[n]? = some v →
          conv0.visibleCols[n]? = some col → ¬ failsToDecode deps opts col.Typ v) →
      (∀ t fileIndex rowNum ds, deps.row t fileIndex rowNum ds = none) →
      emitted (convertRecord deps opts batches).2 =
        batches.flatMap (rowsOf deps opts conv0.visibleCols conv0.datums) ∧
      ∀ (record : List String) (n : Nat) (v : String) (col : ColumnDescriptor T),
        record[n]? = some v → conv0.visibleCols[n]? = some col →
        (decodedRow deps opts conv0.visibleCols conv0.datums record)[n]? =
          some (if opts.NullEncoding = some v then deps.DNull
            else (deps.ParseDatumStringAs col.Typ v).1)) ∧
    (∀ (parse : T → String → D × Option String) (batches : List csvRecord),
      (∀ t v, opts.NullEncoding ≠ some v → parse t v = deps.ParseDatumStringAs t v) →
      convertRecord { deps with ParseDatumStringAs := parse } opts batches =
        convertRecord deps opts batches) := by
  refine ⟨?_, ?_, ?_, ?_⟩
  · intro file rowNum conv pre v post col hcol hi hpre
    have hstore := convertFields_store deps opts file rowNum pre v post col conv 0
      (by simpa using hi) (by simpa using hcol) (by simpa using hpre)
    simp only [Nat.zero_add] at hstore
    constructor
    · intro hn
      rw [hstore]
      simp [decodeField, hn]
    · intro hn
      rw [hstore]
      simp [decodeField, hn]
  · intro batches
    exact convertRecord_rowDecoded deps opts conv0 hnew batches
  · intro e batches he hb hrow
    refine ⟨convertRecord_uniform deps opts conv0 e hnew hsd he (by omega) hrow batches hb, ?_⟩
    intro record n v col hv hcol
    rw [decodedRow_slot deps opts conv0.visibleCols conv0.datums record n v col hv hcol]
    rfl
  · intro parse batches hagree
    exact convertRecord_congr deps opts parse hagree batches

/-- The null-sentinel statement on the sample table with the sentinel
`NULL`: the batch of the records `NULL,a` and `7,NULL` gives the rows
`(null, a)` and `(7, null)`, the first with the null datum in the `INT`
column and the second with the null datum in the `STRING` column. -/
theorem convertRecord_null_sentinel_witness :
    emitted (convertRecord (sampleDeps []) ⟨0, some "NULL"⟩
        [{ r := [["NULL", "a"], ["7", "NULL"]], file := "data.csv", fileIndex := 0,
           rowOffset := 1 }]).2 =
      [(0, 1, [SampleDatum.DNull, SampleDatum.DString "a"]),
        (0, 2, [SampleDatum.DInt "7", SampleDatum.DNull])] :=
  ((convertRecord_null_sentinel (sampleDeps []) ⟨0, some "NULL"⟩ sampleConverter rfl rfl
    rfl).2.2.1 2
    [{ r := [["NULL", "a"], ["7", "NULL"]], file := "data.csv", fileIndex := 0,
       rowOffset := 1 }]
    (by decide)
    (by
      intro b hb record hr
      simp only [List.mem_singleton] at hb
      subst hb
      simp only [List.mem_cons, List.mem_singleton, List.not_mem_nil, or_false] at hr
      rcases hr with rfl | rfl
      · refine ⟨rfl, ?_⟩
        intro n v col hv hc
        rcases n with _ | _ | n
        · simp [sampleConverter] at hv hc
          subst hv
          subst hc
          decide
        · simp [sampleConverter] at hv hc
          subst hv
          subst hc
          decide
        · simp at hv
      · refine ⟨rfl, ?_⟩
        intro n v col hv hc
        rcases n with _ | _ | n
        · simp [sampleConverter] at hv hc
          subst hv
          subst hc
          decide
        · simp [sampleConverter] at hv hc
          subst hv
          subst hc
          decide
        · simp at hv)
    (fun _ _ _ _ => rfl)).1

/-- C6, amended: a worker has converted the batches `pre` without error and
receives the batch `b`; the records `before` of `b` decode, their fields lie
within the visible columns and the row-emission routine returns no error on
their rows; the next record has a first field `v`, after the fields
`vsBefore`, that is not the null sentinel and on which the decoder reports
the error `e`. Then `convertRecord` returns the decode error with the file
name of `b` and the row number `b.rowOffset + before.length`; the rows handed
to the row-emission routine for `b` are those of the records `before`, in
order, and no other; the final `sendBatch` is not called. -/
theorem convertRecord_decode_failure (deps : Deps D T) (opts : CSVOptions)
    (conv0 conv1 : rowConverter D T) (tr1 : List (ConvEvent D))
    (pre : List csvRecord) (b : csvRecord) (post : List csvRecord)
    (before : List (List String)) (vsBefore : List String) (v : String)
    (vsAfter : List String) (after : List (List String)) (col : ColumnDescriptor T) (e : String)
    (hnew : deps.newRowConverter = Except.ok conv0) (hsd : conv0.sessionData = true)
    (hlen : conv0.datums.length = conv0.visibleCols.length)
    (hpre : convertBatches deps opts conv0 [] pre = (Outcome.nil, conv1, tr1))
    (hb : b.r = before ++ (vsBefore ++ v :: vsAfter) :: after)
    (hbefore : ∀ record ∈ before, record.length ≤ conv0.visibleCols.length ∧
      ∀ (n : Nat) (v1 : String) (col1 : ColumnDescriptor T), record[n]? = some v1 →
        conv0.visibleCols[n]? = some col1 → ¬ failsToDecode deps opts col1.Typ v1)
    (hvs : ∀ (n : Nat) (v1 : String) (col1 : ColumnDescriptor T), vsBefore[n]? = some v1 →
      conv0.visibleCols[n]? = some col1 → ¬ failsToDecode deps opts col1.Typ v1)
    (hcol : conv0.visibleCols[vsBefore.length]? = some col)
    (hnull : opts.NullEncoding ≠ some v)
    (hfail : (deps.ParseDatumStringAs col.Typ v).2 = some e)
    (hemit : ∀ (t : List (ConvEvent D)) (ds : List D) (m : Nat), m < before.length →
      deps.row t b.fileIndex (b.rowOffset + m) ds = none) :
    ∃ news : List (ConvEvent D),
      convertRecord deps opts (pre ++ b :: post) =
        (Outcome.error (ImportError.parse b.file (b.rowOffset + before.length) col.Name
          (deps.SQLString col.Typ) e), tr1 ++ news) ∧
      (emitted news).map (fun x => (x.1, x.2.1)) =
        (List.range before.length).map (fun m => (b.fileIndex, b.rowOffset + m)) ∧
      flushed (tr1 ++ news) = false := by
  obtain ⟨hp1, hp2, hp3⟩ := convertBatches_preserves deps opts pre conv0 []
  rw [hpre] at hp1 hp2 hp3
  simp only at hp1 hp2 hp3
  obtain ⟨conv2, news, h1, h2, h3, h4, h5⟩ := convertRows_before deps opts b before conv1 tr1 0
    (by rw [hp1, hp2]; exact hlen) (by rw [hp1]; exact hbefore)
    (by intro t ds m hm; simpa using hemit t ds m hm)
  have hlt : vsBefore.length < conv0.visibleCols.length := by
    by_contra hge
    rw [List.getElem?_eq_none (by omega)] at hcol
    exact Option.noConfusion hcol
  have hff := convertFields_fail deps opts b.file (b.rowOffset + (0 + before.length)) vsBefore v
    vsAfter col e conv2 0 (by rw [h3, hp2, hlen]; omega) (by rw [h2, hp1]; simpa using hcol)
    (by rw [h2, hp1]; simpa using hvs) hnull hfail
  refine ⟨news, ?_, by simpa using h4, ?_⟩
  · unfold convertRecord
    rw [hnew]
    simp only [hsd]
    rw [convertBatches_append deps opts pre conv0 conv1 [] tr1 (b :: post) hpre, convertBatches,
      hb, h1, convertRows]
    rcases hres : convertFields deps opts b.file (b.rowOffset + (0 + before.length)) conv2 0
      (vsBefore ++ v :: vsAfter) with ⟨out, conv3⟩
    rw [hres] at hff
    simp only at hff
    subst hff
    simp
  · rw [h5, hp3]
    rfl

/-- The decode-failure statement on the sample table: the batch of rows 10
and 11 whose second record has the field `x` in the `INT` column. -/
theorem convertRecord_decode_failure_witness :
    ∃ news : List (ConvEvent SampleDatum),
      convertRecord (sampleDeps []) ⟨0, none⟩
          ([] ++ { r := [["1", "a"], ["x", "b"], ["3", "c"]], file := "data.csv",
                   fileIndex := 0, rowOffset := 10 } :: []) =
        (Outcome.error (ImportError.parse "data.csv" (10 + [["1", "a"]].length) "id" "INT"
          "could not parse as INT"), [] ++ news) ∧
      (emitted news).map (fun x => (x.1, x.2.1)) =
        (List.range [["1", "a"]].length).map (fun m => ((0 : Int), 10 + m)) ∧
      flushed ([] ++ news) = false :=
  convertRecord_decode_failure (sampleDeps []) ⟨0, none⟩ sampleConverter sampleConverter []
    [] { r := [["1", "a"], ["x", "b"], ["3", "c"]], file := "data.csv", fileIndex := 0,
         rowOffset := 10 } []
    [["1", "a"]] [] "x" ["b"] [["3", "c"]] ⟨"id", SampleType.INT⟩ "could not parse as INT"
    rfl rfl rfl rfl rfl
    (by
      intro record hr
      simp only [List.mem_singleton] at hr
      subst hr
      refine ⟨by decide, ?_⟩
      intro n v1 col1 hv hc
      rcases n with _ | _ | n
      · simp [sampleConverter] at hv hc
        subst hv
        subst hc
        decide
      · simp [sampleConverter] at hv hc
        subst hv
        subst hc
        decide
      · simp at hv)
    (by intro n v1 col1 hv; simp at hv)
    rfl (by decide) rfl
    (by intro t ds m _; rfl)

/-- C6 as stated fails when the row-emission routine reports an error
before the failing field is reached: in the batch of rows 10 and 11 of the
sample table the first field that fails to decode is `x`, in the record of
index 1, but the emission of row 10 fails, and `convertRecord` returns the
emission error of row 10, not a decode error of row 11. -/
theorem convertRecord_decode_failure_counterexample :
    ¬ failsToDecode (sampleDeps [10]) ⟨0, none⟩ SampleType.INT "1" ∧
    ¬ failsToDecode (sampleDeps [10]) ⟨0, none⟩ SampleType.STRING "a" ∧
    failsToDecode (sampleDeps [10]) ⟨0, none⟩ SampleType.INT "x" ∧
    convertRecord (sampleDeps [10]) ⟨0, none⟩
        [{ r := [["1", "a"], ["x", "b"]], file := "data.csv", fileIndex := 0,
           rowOffset := 10 }] =
      (Outcome.error (ImportError.convertRow "data.csv" 10 "emission failed"),
        [ConvEvent.row 0 10 [SampleDatum.DInt "1", SampleDatum.DString "a"]]) ∧
    (convertRecord (sampleDeps [10]) ⟨0, none⟩
        [{ r := [["1", "a"], ["x", "b"]], file := "data.csv", fileIndex := 0,
           rowOffset := 10 }]).1 ≠
      Outcome.error (ImportError.parse "data.csv" 11 "id" "INT" "could not parse as INT") :=
  ⟨by decide, by decide, by decide, by rfl, by decide⟩

/-! ## Converter pool: independence of the assignment of batches -/

/-- C8: the batches that `readFile` hands off for one input are converted by
a pool of `P` workers, the batch of index `n` going to worker `assign n`,
each worker with its own converter and datums buffer from `newRowConverter`.
When no field fails to decode and the row-emission routine never fails, each
worker hands to the row-emission routine exactly the rows of its batches,
batch after batch and in record order inside each batch, and the tuples
(file index, absolute row number, decoded values) handed over by the whole
pool are the same, up to order, for any two pool sizes and assignments, for
instance one worker and eight workers: both are a permutation of the rows of
all batches. -/
theorem pool_emits_same_rows (env : Env) (c : csvInputReader) (reads : List ReadResult)
    (inputIdx : Int) (inputName : String) (deps : Deps D T) (conv0 : rowConverter D T)
    (P P' : Nat) (assign assign' : Nat → Nat)
    (hnew : deps.newRowConverter = Except.ok conv0) (hsd : conv0.sessionData = true)
    (hlen : conv0.datums.length = conv0.visibleCols.length)
    (hcols : c.expectedCols ≤ conv0.visibleCols.length)
    (hdec : ∀ b ∈ handoffs (readFile env c reads inputIdx inputName).2.2, ∀ record ∈ b.r,
      ∀ (n : Nat) (v : String) (col : ColumnDescriptor T), record[n]? = some v →
        conv0.visibleCols[n]? = some col → ¬ failsToDecode deps c.opts col.Typ v)
    (hrow : ∀ t fileIndex rowNum ds, deps.row t fileIndex rowNum ds = none)
    (hP : ∀ n, n < (handoffs (readFile env c reads inputIdx inputName).2.2).length →
      assign n < P)
    (hP' : ∀ n, n < (handoffs (readFile env c reads inputIdx inputName).2.2).length →
      assign' n < P') :
    (∀ w, emitted (convertRecord deps c.opts
          (received assign w 0 (handoffs (readFile env c reads inputIdx inputName).2.2))).2 =
        (received assign w 0 (handoffs (readFile env c reads inputIdx inputName).2.2)).flatMap
          (rowsOf deps c.opts conv0.visibleCols conv0.datums)) ∧
    (poolEmitted deps c.opts P assign
        (handoffs (readFile env c reads inputIdx inputName).2.2)).Perm
      ((handoffs (readFile env c reads inputIdx inputName).2.2).flatMap
        (rowsOf deps c.opts conv0.visibleCols conv0.datums)) ∧
    (poolEmitted deps c.opts P assign
        (handoffs (readFile env c reads inputIdx inputName).2.2)).Perm
      (poolEmitted deps c.opts P' assign'
        (handoffs (readFile env c reads inputIdx inputName).2.2)) := by
  have hfc : ∀ b ∈ handoffs (readFile env c reads inputIdx inputName).2.2, ∀ record ∈ b.r,
      record.length = c.expectedCols := by
    intro b hb record hr
    apply readLoop_field_count env reads
      { c with batch := { file := inputName, fileIndex := inputIdx, rowOffset := 1, r := [] } }
      [] 1 (by simp) (by simp [handedOff, handoffs]) record
    simp only [handedOff, List.mem_flatMap]
    exact ⟨b, hb, hr⟩
  have hworker : ∀ (a : Nat → Nat) (w : Nat),
      emitted (convertRecord deps c.opts
          (received a w 0 (handoffs (readFile env c reads inputIdx inputName).2.2))).2 =
        (received a w 0 (handoffs (readFile env c reads inputIdx inputName).2.2)).flatMap
          (rowsOf deps c.opts conv0.visibleCols conv0.datums) := by
    intro a w
    apply convertRecord_uniform deps c.opts conv0 c.expectedCols hnew hsd hcols (by omega) hrow
    intro b hb record hr
    have hb' := received_subset a w _ 0 b hb
    exact ⟨hfc b hb' record hr, hdec b hb' record hr⟩
  have hpool : ∀ (Q : Nat) (a : Nat → Nat),
      (∀ n, n < (handoffs (readFile env c reads inputIdx inputName).2.2).length → a n < Q) →
      (poolEmitted deps c.opts Q a
          (handoffs (readFile env c reads inputIdx inputName).2.2)).Perm
        ((handoffs (readFile env c reads inputIdx inputName).2.2).flatMap
          (rowsOf deps c.opts conv0.visibleCols conv0.datums)) := by
    intro Q a ha
    unfold poolEmitted
    have : (List.range Q).flatMap (fun w => emitted (convertRecord deps c.opts
          (received a w 0 (handoffs (readFile env c reads inputIdx inputName).2.2))).2) =
        (List.range Q).flatMap (fun w =>
          (received a w 0 (handoffs (readFile env c reads inputIdx inputName).2.2)).flatMap
            (rowsOf deps c.opts conv0.visibleCols conv0.datums)) :=
      List.flatMap_congr (fun w _ => hworker a w)
    rw [this]
    exact received_perm _ Q a _ 0 (by simpa using ha)
  exact ⟨hworker assign, hpool P assign hP, (hpool P assign hP).trans (hpool P' assign' hP').symm⟩

/-- The pool statement on a header line and three records of the sample
table with batch size 2: one worker against eight workers. -/
theorem pool_emits_same_rows_witness :
    (poolEmitted (sampleDeps []) ((newCSVInputReader ⟨1, some "NULL"⟩ 2).withBatchSize 2).opts 1 (fun _ => 0)
        (handoffs (readFile Env.quiet ((newCSVInputReader ⟨1, some "NULL"⟩ 2).withBatchSize 2)
          [ReadResult.ok ["id", "name"], ReadResult.ok ["1", "a"], ReadResult.ok ["NULL", "b"],
            ReadResult.ok ["3", "c", ""]] 0 "data.csv").2.2)).Perm
      (poolEmitted (sampleDeps []) ((newCSVInputReader ⟨1, some "NULL"⟩ 2).withBatchSize 2).opts 8
        (fun n => (n + 5) % 8)
        (handoffs (readFile Env.quiet ((newCSVInputReader ⟨1, some "NULL"⟩ 2).withBatchSize 2)
          [ReadResult.ok ["id", "name"], ReadResult.ok ["1", "a"], ReadResult.ok ["NULL", "b"],
            ReadResult.ok ["3", "c", ""]] 0 "data.csv").2.2)) :=
  (pool_emits_same_rows Env.quiet ((newCSVInputReader ⟨1, some "NULL"⟩ 2).withBatchSize 2)
    [ReadResult.ok ["id", "name"], ReadResult.ok ["1", "a"], ReadResult.ok ["NULL", "b"],
      ReadResult.ok ["3", "c", ""]] 0 "data.csv" (sampleDeps []) sampleConverter 1 8
    (fun _ => 0) (fun n => (n + 5) % 8) rfl rfl rfl (by decide)
    (by
      intro b hb record hr n v col hv hc
      have hh : handoffs (readFile Env.quiet ((newCSVInputReader ⟨1, some "NULL"⟩ 2).withBatchSize 2)
          [ReadResult.ok ["id", "name"], ReadResult.ok ["1", "a"], ReadResult.ok ["NULL", "b"],
            ReadResult.ok ["3", "c", ""]] 0 "data.csv").2.2 =
          [{ r := [["1", "a"], ["NULL", "b"]], file := "data.csv", fileIndex := 0,
             rowOffset := 1 },
           { r := [["3", "c"]], file := "data.csv", fileIndex := 0, rowOffset := 4 }] := by
        decide
      rw [hh] at hb
      simp only [List.mem_cons, List.mem_singleton, List.not_mem_nil, or_false] at hb
      rcases hb with rfl | rfl
      · simp only [List.mem_cons, List.mem_singleton, List.not_mem_nil, or_false] at hr
        rcases hr with rfl | rfl
        · rcases n with _ | _ | n
          · simp [sampleConverter] at hv hc
            subst hv
            subst hc
            decide
          · simp [sampleConverter] at hv hc
            subst hv
            subst hc
            decide
          · simp at hv
        · rcases n with _ | _ | n
          · simp [sampleConverter] at hv hc
            subst hv
            subst hc
            decide
          · simp [sampleConverter] at hv hc
            subst hv
            subst hc
            decide
          · simp at hv
      · simp only [List.mem_cons, List.mem_singleton, List.not_mem_nil, or_false] at hr
        subst hr
        rcases n with _ | _ | n
        · simp [sampleConverter] at hv hc
          subst hv
          subst hc
          decide
        · simp [sampleConverter] at hv hc
          subst hv
          subst hc
          decide
        · simp at hv)
    (fun _ _ _ _ => rfl) (fun _ _ => Nat.zero_lt_one) (fun n _ => Nat.mod_lt _ (by decide))).2.2

end converter

end importccl
namespace issues

/-! ## `trimIssueRequestBody`: range and size -/

theorem IndexByte_range (s : GoString) (c : UInt8) :
    IndexByte s c = -1 ∨ (0 ≤ IndexByte s c ∧ IndexByte s c < (s.length : Int)) := by
  induction s with
  | nil => left; rfl
  | cons b s ih =>
    unfold IndexByte
    by_cases hb : b = c
    · right
      simp [hb]
    · by_cases h1 : IndexByte s c = -1
      · left
        simp [hb, h1]
      · right
        rcases ih with h | h
        · exact absurd h h1
        · simp only [hb, h1, if_false, List.length_cons]
          push_cast
          omega

theorem LastIndexByte_range (s : GoString) (c : UInt8) :
    LastIndexByte s c = -1 ∨ (0 ≤ LastIndexByte s c ∧ LastIndexByte s c < (s.length : Int)) := by
  induction s with
  | nil => left; rfl
  | cons b s ih =>
    unfold LastIndexByte
    by_cases h1 : LastIndexByte s c ≠ -1
    · right
      rcases ih with h | h
      · exact absurd h h1
      · simp only [h1, if_true, List.length_cons, ne_eq, not_false_eq_true]
        push_cast
        omega
    · by_cases hb : b = c
      · right
        simp [h1, hb]
      · left
        simp [h1, hb]

/-- A slice expression within range does not panic and has `hi - lo`
bytes. -/
theorem slice_ok (s : GoString) (lo hi : Int) (h1 : 0 ≤ lo) (h2 : lo ≤ hi)
    (h3 : hi ≤ (s.length : Int)) :
    ∃ r, slice s lo hi = some r ∧ (r.length : Int) = hi - lo := by
  refine ⟨(s.take hi.toNat).drop lo.toNat, by simp [slice, h1, h2, h3], ?_⟩
  simp only [List.length_drop, List.length_take]
  omega

/-- The loop that drops lines at the beginning returns, without panic, a
string of at most `maxLength` bytes, when `maxLength` is not negative and the
fuel exceeds the length. -/
theorem trimHead_ok (maxLength : Int) (h0 : 0 ≤ maxLength) :
    ∀ (fuel : Nat) (message : GoString), message.length < fuel →
      ∃ r, trimHead maxLength fuel message = GoResult.ret r ∧ (r.length : Int) ≤ maxLength := by
  intro fuel
  induction fuel with
  | zero => intro message h; omega
  | succ fuel ih =>
    intro message hlen
    unfold trimHead
    by_cases hgt : maxLength < (message.length : Int)
    · simp only [hgt, if_true]
      by_cases hidx : IndexByte message 10 ≠ -1
      · rcases IndexByte_range message 10 with h | h
        · exact absurd h hidx
        · obtain ⟨r, hr, hrl⟩ := slice_ok message (IndexByte message 10 + 1) message.length
            (by omega) (by omega) (by omega)
          simp only [hidx, if_true, hr, ne_eq, not_false_eq_true]
          exact ih r (by omega)
      · obtain ⟨r, hr, hrl⟩ := slice_ok message ((message.length : Int) - maxLength)
          message.length (by omega) (by omega) (by omega)
        simp only [hidx, if_false, hr]
        exact ih r (by omega)
    · exact ⟨message, by simp [hgt], by omega⟩

/-- The loop that drops lines at the end returns, without panic, a string of
at most `maxLength` bytes, when `maxLength` is not negative and the fuel
exceeds the length. -/
theorem trimTail_ok (maxLength : Int) (h0 : 0 ≤ maxLength) :
    ∀ (fuel : Nat) (message : GoString), message.length < fuel →
      ∃ r, trimTail maxLength fuel message = GoResult.ret r ∧ (r.length : Int) ≤ maxLength := by
  intro fuel
  induction fuel with
  | zero => intro message h; omega
  | succ fuel ih =>
    intro message hlen
    unfold trimTail
    by_cases hgt : maxLength < (message.length : Int)
    · simp only [hgt, if_true]
      by_cases hidx : LastIndexByte message 10 ≠ -1
      · rcases LastIndexByte_range message 10 with h | h
        · exact absurd h hidx
        · obtain ⟨r, hr, hrl⟩ := slice_ok message 0 (LastIndexByte message 10)
            (by omega) (by omega) (by omega)
          simp only [hidx, if_true, hr, ne_eq, not_false_eq_true]
          exact ih r (by omega)
      · obtain ⟨r, hr, hrl⟩ := slice_ok message 0 maxLength (by omega) (by omega) (by omega)
        simp only [hidx, if_false, hr]
        exact ih r (by omega)
    · exact ⟨message, by simp [hgt], by omega⟩

/-- The loop that moves `startIdx` back by up to 100 lines does not panic
and stays within the message. -/
theorem backUp_ok (message : GoString) :
    ∀ (n : Nat) (startIdx : Int), 0 ≤ startIdx → startIdx ≤ (message.length : Int) →
      ∃ idx, backUp message n startIdx = GoResult.ret idx ∧ 0 ≤ idx ∧ idx ≤ startIdx := by
  intro n
  induction n with
  | zero => intro startIdx h1 _; exact ⟨startIdx, rfl, h1, le_refl _⟩
  | succ n ih =>
    intro startIdx h1 h2
    obtain ⟨pre, hpre, hprel⟩ := slice_ok message 0 startIdx (le_refl _) h1 h2
    unfold backUp
    simp only [hpre]
    by_cases hidx : LastIndexByte pre 10 ≠ -1
    · rcases LastIndexByte_range pre 10 with h | h
      · exact absurd h hidx
      · obtain ⟨idx, hi1, hi2, hi3⟩ := ih (LastIndexByte pre 10) (by omega) (by omega)
        simp only [hidx, if_true, ne_eq, not_false_eq_true]
        exact ⟨idx, hi1, hi2, by omega⟩
    · simp only [hidx, if_false]
      exact ih startIdx h1 h2

/-- A match of the stack trace expression begins within the text. -/
theorem findFrom_range (s : GoString) :
    ∀ (lineStart : Bool) (pos : Nat) (m : Int × Int), findFrom lineStart pos s = some m →
      (pos : Int) ≤ m.1 ∧ m.1 < ((pos + s.length : Nat) : Int) := by
  induction s with
  | nil => intro lineStart pos m h; simp [findFrom] at h
  | cons b s ih =>
    intro lineStart pos m h
    unfold findFrom at h
    cases hm : (if lineStart = true then matchHere (b :: s) else none) with
    | some n =>
      rw [hm] at h
      simp only [Option.some.injEq] at h
      subst h
      simp only [List.length_cons]
      push_cast
      omega
    | none =>
      rw [hm] at h
      have := ih _ (pos + 1) m h
      simp only [List.length_cons]
      push_cast at this ⊢
      omega

/-- For `usedCharacters` of at most `githubIssueBodyMaximumLength`,
`trimIssueRequestBody` returns (it neither panics on a slice nor runs out of
fuel) a string `r` with `usedCharacters + len(r) <= githubIssueBodyMaximumLength`,
whether or not the message holds a stack trace line. -/
theorem trimIssueRequestBody_le (message : GoString) (usedCharacters : Int)
    (h1 : usedCharacters ≤ githubIssueBodyMaximumLength) :
    ∃ r, trimIssueRequestBody message usedCharacters = GoResult.ret r ∧
      usedCharacters + (r.length : Int) ≤ githubIssueBodyMaximumLength := by
  unfold trimIssueRequestBody
  cases hfind : FindStringIndex message with
  | none =>
    obtain ⟨r, hr, hrl⟩ := trimHead_ok (githubIssueBodyMaximumLength - usedCharacters)
      (by omega) (message.length + 1) message (by omega)
    exact ⟨r, by simpa using hr, by omega⟩
  | some m =>
    have hm := findFrom_range message true 0 m hfind
    obtain ⟨idx, hi1, hi2, hi3⟩ := backUp_ok message 100 m.1 (by omega)
      (by push_cast at hm; omega)
    obtain ⟨msg, hs, hsl⟩ := slice_ok message idx message.length hi2
      (by push_cast at hm; omega) (le_refl _)
    obtain ⟨r, hr, hrl⟩ := trimTail_ok (githubIssueBodyMaximumLength - usedCharacters)
      (by omega) (msg.length + 1) msg (by omega)
    exact ⟨r, by simp only [hi1, hs]; exact hr, by omega⟩

/-- C9 at failing inputs: with 65534 characters used, the two-byte message
`ab` is cut to `b` and the total size is 65535; with 65510 characters used,
a message with a stack trace line is cut to 25 bytes and the total size is
65535. In both cases the total size equals
`githubIssueBodyMaximumLength` and is not less than it. -/
theorem trimIssueRequestBody_reaches_maximum :
    trimIssueRequestBody [97, 98] 65534 = GoResult.ret [98] ∧
    ¬ ((65534 : Int) + (([98] : GoString).length : Int) < githubIssueBodyMaximumLength) ∧
    trimIssueRequestBody
        [97, 10, 98, 10, 103, 111, 114, 111, 117, 116, 105, 110, 101, 32, 49, 50, 32, 91,
          114, 117, 110, 110, 105, 110, 103, 93, 10, 102, 111, 111, 10, 98, 97, 114] 65510 =
      GoResult.ret
        [10, 98, 10, 103, 111, 114, 111, 117, 116, 105, 110, 101, 32, 49, 50, 32, 91,
          114, 117, 110, 110, 105, 110, 103, 93] ∧
    ¬ ((65510 : Int) + 25 < githubIssueBodyMaximumLength) := by
  refine ⟨by decide, by decide, by decide, by decide⟩

end issues
